import Mathlib

/-!
Shallow embedding of the G10 rates dashboard analytics core
(modules/calculations.py, modules/hedging.py, modules/analytics.py).

Python floats are modelled as exact rationals; the transcendental
zero-yield conversions (log, real power) are modelled over the reals.
Pandas data frames holding a curve are modelled as lists of
(years, rate) pairs of rationals, taken after the dropna/to_numeric
coercions (rows whose years or rate failed numeric coercion are absent).
numpy round (used by pandas .round) rounds half to even, as does the
Python builtin round; both are modelled by roundHalfEven below.
-/

namespace G10

/-- Numerical floor 1e-12 used by the bootstrap clamp. -/
def EPS12 : ℚ := 1 / 10 ^ 12

/-- Degeneracy threshold 1e-9 for the bond bootstrap numerator. -/
def EPS9 : ℚ := 1 / 10 ^ 9

/-- Round half to even, the rounding used by numpy .round() and Python round(). -/
def roundHalfEven (q : ℚ) : ℤ :=
  let f := ⌊q⌋
  let r := q - (f : ℚ)
  if r < 1/2 then f
  else if 1/2 < r then f + 1
  else if f % 2 = 0 then f else f + 1

/-- Python round(q, nd), on exact decimal inputs. -/
def pyRound (nd : ℕ) (q : ℚ) : ℚ :=
  (roundHalfEven (q * 10 ^ nd) : ℚ) / 10 ^ nd

/-- Clamp to the interval from 1e-12 to 1, as in DF_N = max(min(DF_N, 1.0), 1e-12). -/
def clamp01 (x : ℚ) : ℚ := max (min x 1) EPS12

/-- Ordering of curve points by the years key (pandas sort_values on years). -/
def leY (p q : ℚ × ℚ) : Prop := p.1 ≤ q.1

instance : DecidableRel leY := fun p q => inferInstanceAs (Decidable (p.1 ≤ q.1))

instance : IsTotal (ℚ × ℚ) leY := ⟨fun a b => le_total a.1 b.1⟩

instance : IsTrans (ℚ × ℚ) leY := ⟨fun _ _ _ h1 h2 => le_trans h1 h2⟩

/-- Ordering of output rows (years, zero yield) by the years key. -/
def leYR (p q : ℚ × ℝ) : Prop := p.1 ≤ q.1

instance : DecidableRel leYR := fun p q => inferInstanceAs (Decidable (p.1 ≤ q.1))

instance : IsTotal (ℚ × ℝ) leYR := ⟨fun a b => le_total a.1 b.1⟩

instance : IsTrans (ℚ × ℝ) leYR := ⟨fun _ _ _ h1 h2 => le_trans h1 h2⟩

/-- Stable sort of a curve by years (pandas sort_values("years")). -/
def sortByYears (pts : List (ℚ × ℚ)) : List (ℚ × ℚ) := List.insertionSort leY pts

/-- Drop later rows having an already seen key (pandas drop_duplicates(subset=["N"]), keep first). -/
def dedupByKey : List (ℕ × ℚ) → List (ℕ × ℚ)
  | [] => []
  | p :: rest => p :: dedupByKey (rest.filter (fun q => decide (q.1 ≠ p.1)))
termination_by l => l.length
decreasing_by
  simp only [List.length_cons]
  exact Nat.lt_succ_of_le (List.length_filter_le _ _)

/-- Shared preprocessing of both bootstrap variants: sort by years, set
N = round(years * freq), keep N greater than 0, drop duplicate N keeping the first. -/
def prepCurve (pts : List (ℚ × ℚ)) (freq : ℕ) : List (ℕ × ℚ) :=
  dedupByKey ((((sortByYears pts).map
      (fun p => (roundHalfEven (p.1 * freq), p.2))).filter
      (fun p => decide (0 < p.1))).map (fun p => (p.1.toNat, p.2)))

/-- Lookup in the running discount factor table (Python dict DF). -/
def dfLookup (T : List (ℕ × ℚ)) (k : ℕ) : Option ℚ :=
  (T.find? (fun p => decide (p.1 = k))).map Prod.snd

/-- Write DF[N] = v into the table: overwrite in place when the key exists,
append otherwise (Python dict assignment, insertion ordered). -/
def dfInsert (T : List (ℕ × ℚ)) (k : ℕ) (v : ℚ) : List (ℕ × ℚ) :=
  if (T.find? (fun p => decide (p.1 = k))).isSome then
    T.map (fun p => if p.1 = k then (k, v) else p)
  else T ++ [(k, v)]

/-- One summand of the accumulated coupon/annuity sum: w * DF[k] when k is in
the table, 0 otherwise (the loop silently skips missing indices). -/
def lookupTerm (T : List (ℕ × ℚ)) (w : ℚ) (k : ℕ) : ℚ :=
  match dfLookup T k with
  | some v => w * v
  | Option.none => 0

/-- Sum of w * DF[k] over k in range(1, N) that are present in the table.
With w = c this is coupon_sum of the bond loop; with w = alpha it is the
annuity of the swap loop. -/
def dfWeightedSum (T : List (ℕ × ℚ)) (w : ℚ) (N : ℕ) : ℚ :=
  ((List.range' 1 (N - 1)).map (lookupTerm T w)).sum

/-- Body of one bond bootstrap iteration: numer = 100 - coupon_sum,
denom = 100 + c, force 1e-12 when numer is at most 1e-9, then clamp. -/
def bondDFN (T : List (ℕ × ℚ)) (c : ℚ) (N : ℕ) : ℚ :=
  let numer := 100 - dfWeightedSum T c N
  let denom := 100 + c
  clamp01 (if numer ≤ EPS9 then EPS12 else numer / denom)

/-- The bond bootstrap loop of bootstrap_zero_from_par: walks the prepared
points carrying the discount factor table, returns the final table and the
per-iteration list of (N, DF_N) pairs in iteration order. -/
def bondLoop (freq : ℕ) (T : List (ℕ × ℚ)) : List (ℕ × ℚ) → List (ℕ × ℚ) × List (ℕ × ℚ)
  | [] => (T, [])
  | p :: rest =>
    let y := p.2 / 100
    let c := y / (freq : ℚ) * 100
    let v := bondDFN T c p.1
    let r := bondLoop freq (dfInsert T p.1 v) rest
    (r.1, (p.1, v) :: r.2)

/-- Body of one swap bootstrap iteration:
DF_N = (1 - S * annuity) / (1 + S * alpha), then clamp. -/
def swapDFN (T : List (ℕ × ℚ)) (S alpha : ℚ) (N : ℕ) : ℚ :=
  clamp01 ((1 - S * dfWeightedSum T alpha N) / (1 + S * alpha))

/-- The swap bootstrap loop of bootstrap_zero_from_par_swaps. -/
def swapLoop (freq : ℕ) (T : List (ℕ × ℚ)) : List (ℕ × ℚ) → List (ℕ × ℚ) × List (ℕ × ℚ)
  | [] => (T, [])
  | p :: rest =>
    let S := p.2 / 100
    let v := swapDFN T S (1 / (freq : ℚ)) p.1
    let r := swapLoop freq (dfInsert T p.1 v) rest
    (r.1, (p.1, v) :: r.2)

/-- Zero yield conversion of one bootstrapped discount factor at t = N/freq:
continuous compounding -log(DF)/max(t, 1e-12), otherwise annual compounding
DF ** (-1/max(t, 1e-12)) - 1. -/
noncomputable def zeroYield (comp : String) (df t : ℚ) : ℝ :=
  if comp = "cont" then -Real.log (df : ℝ) / max (t : ℝ) ((1 : ℝ) / 10 ^ 12)
  else (df : ℝ) ^ (-(1 : ℝ) / max (t : ℝ) ((1 : ℝ) / 10 ^ 12)) - 1

/-- bootstrap_zero_from_par: prepare the curve, run the bond loop, convert each
stored DF_N to a zero yield in percent at years = N/freq, and sort the output
rows by years. -/
noncomputable def bootstrap_zero_from_par (pts : List (ℚ × ℚ)) (freq : ℕ) (comp : String) :
    List (ℚ × ℝ) :=
  List.insertionSort leYR
    (((bondLoop freq [] (prepCurve pts freq)).2).map
      (fun p => ((p.1 : ℚ) / (freq : ℚ), 100 * zeroYield comp p.2 ((p.1 : ℚ) / (freq : ℚ)))))

/-- bootstrap_zero_from_par_swaps: the swap variant of the bootstrap. -/
noncomputable def bootstrap_zero_from_par_swaps (pts : List (ℚ × ℚ)) (freq : ℕ) (comp : String) :
    List (ℚ × ℝ) :=
  List.insertionSort leYR
    (((swapLoop freq [] (prepCurve pts freq)).2).map
      (fun p => ((p.1 : ℚ) / (freq : ℚ), 100 * zeroYield comp p.2 ((p.1 : ℚ) / (freq : ℚ)))))

/-- Average consecutive rows sharing one years key (groupby("years").agg(mean)
applied to a sorted curve); the years key is kept, rates are averaged. -/
def groupAvg : List (ℚ × ℚ) → List (ℚ × ℚ)
  | [] => []
  | p :: rest =>
    let same := rest.takeWhile (fun q => decide (q.1 = p.1))
    let diff := rest.dropWhile (fun q => decide (q.1 = p.1))
    (p.1, ((p :: same).map Prod.snd).sum / ((p :: same).length : ℚ)) :: groupAvg diff
termination_by l => l.length
decreasing_by
  simp only [List.length_cons]
  exact Nat.lt_succ_of_le (List.Sublist.length_le (List.dropWhile_sublist _))

/-- The curve cleaning shared by _clean_curve and _clean_par_curve: keep valid
(years, rate) rows, sort ascending by years, deduplicate years by averaging
the rate. Invalid rows are already absent from the modelled input. -/
def cleanCurve (pts : List (ℚ × ℚ)) : List (ℚ × ℚ) := groupAvg (sortByYears pts)

/-- Strict join of add_spread_vs_ref_par: merge on equality of the years key
(pandas merge on="years", how="inner"); each target row is paired with the
first reference row carrying exactly the same years value. -/
def exactJoin (a b : List (ℚ × ℚ)) : List (ℚ × ℚ × ℚ) :=
  a.filterMap (fun p => (b.find? (fun q => decide (q.1 = p.1))).map
    (fun q => (p.1, p.2, q.2)))

/-- Nearest-neighbour match of pandas merge_asof(direction="nearest",
tolerance=tol): the reference row minimising the years distance to x, the
earlier row on ties, but only when within tolerance. -/
def nearestRef (x tol : ℚ) : List (ℚ × ℚ) → Option (ℚ × ℚ)
  | [] => Option.none
  | p :: rest =>
    match nearestRef x tol rest with
    | Option.none => if |p.1 - x| ≤ tol then some p else Option.none
    | some q => if |p.1 - x| ≤ tol ∧ |p.1 - x| ≤ |q.1 - x| then some p else some q

/-- The fallback merge of add_spread_vs_ref_par: per target row, the nearest
reference row within tolerance, unmatched target rows dropped. -/
def asofNearest (a b : List (ℚ × ℚ)) (tol : ℚ) : List (ℚ × ℚ × ℚ) :=
  a.filterMap (fun p => (nearestRef p.1 tol b).map (fun q => (p.1, p.2, q.2)))

/-- Row-count threshold max(2, int(0.3 * min(len(a), len(b)))); Python int()
truncation equals the floor on these nonnegative values. -/
def joinThreshold (la lb : ℕ) : ℕ :=
  max 2 (⌊3 / 10 * (min la lb : ℚ)⌋).toNat

/-- add_spread_vs_ref_par on already-coerced numeric curves: clean both sides,
join strictly on years, fall back to the nearest merge when the strict join
is empty or has fewer rows than the threshold, emit (years, spread in bp)
sorted by years. Tenor and country label columns are presentation only and
are not modelled. -/
def add_spread_vs_ref_par (dft dfr : List (ℚ × ℚ)) (tol : ℚ) : List (ℚ × ℚ) :=
  let a := cleanCurve dft
  let b := cleanCurve dfr
  if a = [] ∨ b = [] then []
  else
    let m := exactJoin a b
    let m2 := if m = [] ∨ m.length < joinThreshold a.length b.length
      then asofNearest a b tol else m
    List.insertionSort leY (m2.map (fun r => (r.1, (r.2.1 - r.2.2) * 100)))

/-- Rounding of a years key to 1e-6 precision. -/
def round6 (q : ℚ) : ℚ := (roundHalfEven (q * 10 ^ 6) : ℚ) / 10 ^ 6

/-- Modelled from the claim wording (not from the source): the exact join of
the spread alignment as the claim describes it, matching rows whose years are
equal after rounding to 1e-6 precision. The source joins on exact equality. -/
def claimJoin (a b : List (ℚ × ℚ)) : List (ℚ × ℚ × ℚ) :=
  a.filterMap (fun p => (b.find? (fun q => decide (round6 q.1 = round6 p.1))).map
    (fun q => (p.1, p.2, q.2)))

/-- Modelled from the claim wording (not from the source): the spread
alignment with the rounded exact join of the claim in place of the strict
equality join of the code, all else equal. -/
def add_spread_vs_ref_par_claim (dft dfr : List (ℚ × ℚ)) (tol : ℚ) : List (ℚ × ℚ) :=
  let a := cleanCurve dft
  let b := cleanCurve dfr
  if a = [] ∨ b = [] then []
  else
    let m := claimJoin a b
    let m2 := if m = [] ∨ m.length < joinThreshold a.length b.length
      then asofNearest a b tol else m
    List.insertionSort leY (m2.map (fun r => (r.1, (r.2.1 - r.2.2) * 100)))

/-- numpy.interp on a nonempty knot list b (pairs of knot position and value),
with left/right clamping to the boundary values. -/
def npInterp (x : ℚ) : List (ℚ × ℚ) → ℚ
  | [] => 0
  | [(_, y1)] => y1
  | (x1, y1) :: (x2, y2) :: rest =>
    if x ≤ x1 then y1
    else if x ≤ x2 then y1 + (y2 - y1) * (x - x1) / (x2 - x1)
    else npInterp x ((x2, y2) :: rest)

/-- asw_spread: clean both curves, interpolate the swap curve onto every bond
maturity (flat beyond the ends), emit (years, (bond - swap) * 100) sorted by
years; empty when the bond curve is empty or the swap curve has fewer than
two points. -/
def asw_spread (df_bonds df_swaps : List (ℚ × ℚ)) : List (ℚ × ℚ) :=
  let a := cleanCurve df_bonds
  let b := cleanCurve df_swaps
  if a = [] ∨ b.length < 2 then []
  else List.insertionSort leY (a.map (fun p => (p.1, (p.2 - npInterp p.1 b) * 100)))

/-- bond_price_clean: present value of the periodic coupons plus redemption at
simple per-period compounding; n = int(round(T * freq)); price is the face
value when n is not positive. -/
def bond_price_clean (face coupon_pct ytm_pct T_years : ℚ) (freq : ℕ) : ℚ :=
  let c := coupon_pct / 100 * face / (freq : ℚ)
  let y := ytm_pct / 100 / (freq : ℚ)
  let n := roundHalfEven (T_years * (freq : ℚ))
  if n ≤ 0 then face
  else (((List.range' 1 n.toNat).map (fun k => c / (1 + y) ^ k)).sum) + face / (1 + y) ^ n.toNat

/-- bond_dv01: finite-difference price sensitivity to a bump_bp yield bump,
reported as an absolute value. -/
def bond_dv01 (face coupon_pct ytm_pct T_years : ℚ) (freq : ℕ) (bump_bp : ℚ) : ℚ :=
  let p0 := bond_price_clean face coupon_pct ytm_pct T_years freq
  let p_up := bond_price_clean face coupon_pct (ytm_pct + bump_bp / 100) T_years freq
  |(p_up - p0) / (bump_bp / 10000)|

/-- pick_nearest_swap_tenor: the years value of the curve closest to T, the
first one in sorted order on ties; none models the nan of an empty curve. -/
def pick_nearest_swap_tenor (df : List (ℚ × ℚ)) (T : ℚ) : Option ℚ :=
  (sortByYears df).foldl (fun best p =>
    match best with
    | Option.none => some p.1
    | some b => if |p.1 - T| < |b - T| then some p.1 else best)
    Option.none

/-- swap_dv01_from_par_curve: the annuity approximation
tenor_years * (1/freq) * 100; none models the nan of an empty curve. The
nearest quoted rate s0 is looked up by the source and then unused. -/
def swap_dv01_from_par_curve (df : List (ℚ × ℚ)) (tenor : Option ℚ) (freq : ℕ) : Option ℚ :=
  if df.isEmpty then Option.none
  else tenor.map (fun t => t * (1 / (freq : ℚ)) * 100)

/-- ASCII uppercasing of a symbol string (Python str.upper on these inputs). -/
def upperStr (s : String) : String := String.mk (s.toList.map Char.toUpper)

/-- futures_dv01_lookup: static DV01 per contract by symbol; none models the
nan returned for unknown symbols. -/
def futures_dv01_lookup (symbol : String) : Option ℚ :=
  let u := upperStr symbol
  if u = "FGBL" then some 85
  else if u = "ZN" then some 80
  else if u = "ZB" then some 120
  else if u = "FGBM" then some 55
  else if u = "FGBS" then some 30
  else Option.none

/-- liquidity_score: 0.4 for on-the-run, up to 0.3 from the bid/ask width,
up to 0.3 from the daily volume, capped at 1. -/
def liquidity_score (is_on_the_run : Bool) (bid_ask_bp : Option ℚ) (est_daily_volume_mm : Option ℚ) : ℚ :=
  let s : ℚ := if is_on_the_run then 0 + 2/5 else 0
  let s := match bid_ask_bp with
    | Option.none => s
    | some ba => s + max 0 (min (3/10) (3/10 * (2 / max (1/2) ba)))
  let s := match est_daily_volume_mm with
    | Option.none => s
    | some v => s + max 0 (min (3/10) (3/10 * (v / 200)))
  min 1 s

/-- Futures leg of a hedge proposal: either a sized leg or the explicit
unknown-DV01 marker dict. -/
inductive FutLeg
  | ok (symbol : String) (dv01PerContract contracts : ℚ)
  | unknown (symbol : String)
deriving DecidableEq

/-- Swap leg of a hedge proposal: either a sized leg or the explicit
curve-unavailable marker dict. -/
inductive IrsLeg
  | ok (tenorYears dv01Per100 receiverFixNotional : ℚ)
  | unavailable
deriving DecidableEq

/-- Result dict of hedge_proposal; futures = none models the absent futures
key when no symbol was passed. -/
structure HedgeOut where
  dv01_bond : ℚ
  futures : Option FutLeg
  irs : IrsLeg
  liquidity_score : ℚ
deriving DecidableEq

/-- Leg assembly of hedge_proposal, split from the bond DV01 computation:
futures leg when a (truthy) symbol is given, swap leg from the nearest tenor
annuity approximation, and the placeholder liquidity score computed from the
default arguments. -/
def hedgeLegs (dv01_bond : ℚ) (df_swaps : List (ℚ × ℚ)) (futures_symbol : Option String)
    (T_years : ℚ) (swap_freq : ℕ) : HedgeOut :=
  let fut : Option FutLeg :=
    match futures_symbol with
    | Option.none => Option.none
    | some s =>
      if s = "" then Option.none
      else
        match futures_dv01_lookup s with
        | some d =>
          if 0 < d then some (FutLeg.ok s d (pyRound 2 (dv01_bond / d)))
          else some (FutLeg.unknown s)
        | Option.none => some (FutLeg.unknown s)
  let tenor := pick_nearest_swap_tenor df_swaps T_years
  let irs : IrsLeg :=
    match swap_dv01_from_par_curve df_swaps tenor swap_freq, tenor with
    | some d, some t =>
      if 0 < d then IrsLeg.ok t d (pyRound 4 (dv01_bond / d * 100))
      else IrsLeg.unavailable
    | _, _ => IrsLeg.unavailable
  ⟨dv01_bond, fut, irs, pyRound 2 (liquidity_score true (some 1) (some 50))⟩

/-- hedge_proposal: bond DV01 from the bond terms (freq fixed at 2, 1bp bump),
then the hedge legs. -/
def hedge_proposal (face coupon_pct ytm_pct T_years : ℚ) (df_swaps : List (ℚ × ℚ))
    (futures_symbol : Option String) (swap_freq : ℕ) : HedgeOut :=
  hedgeLegs (bond_dv01 face coupon_pct ytm_pct T_years 2 1) df_swaps futures_symbol T_years swap_freq

/-- Whitespace test for the Python str.strip / float() stripping. -/
def isWs (c : Char) : Bool := c = ' ' || c = '\t' || c = '\n' || c = '\r'

/-- Strip leading and trailing whitespace. -/
def stripWs (l : List Char) : List Char :=
  ((l.dropWhile isWs).reverse.dropWhile isWs).reverse

/-- Decimal digit run to a natural number. -/
def digitsToNat (l : List Char) : ℕ := l.foldl (fun a c => a * 10 + (c.toNat - 48)) 0

/-- Models CPython float() on plain decimal literals: optional sign, digits,
optional fractional part. Returns none exactly where float() raises
ValueError on such inputs; exponent and special forms are outside the input
space exercised here. -/
def pyFloat (s : String) : Option ℚ :=
  let cs := stripWs s.toList
  let sg : ℚ := match cs with
    | '-' :: _ => -1
    | _ => 1
  let cs2 : List Char := match cs with
    | '-' :: r => r
    | '+' :: r => r
    | r => r
  let ip := cs2.takeWhile Char.isDigit
  let rest := cs2.dropWhile Char.isDigit
  match rest with
  | [] => if ip.isEmpty then Option.none else some (sg * (digitsToNat ip : ℚ))
  | '.' :: fp =>
    if fp.all Char.isDigit && !(ip.isEmpty && fp.isEmpty) then
      some (sg * ((digitsToNat ip : ℚ) + (digitsToNat fp : ℚ) / 10 ^ fp.length))
    else Option.none
  | _ => Option.none

/-- A Python value reaching the tenor parsers: None, a numeric, or a string. -/
inductive PyVal
  | pnone
  | num (q : ℚ)
  | pstr (s : String)

/-- Shared string branch of both tenor parsers: strip, uppercase, then parse
the prefix before a Y or M suffix with float(); Except.error models the
ValueError float() raises on a non-numeric prefix. -/
def tenorStrParse (s0 : String) : Except String (Option ℚ) :=
  let s := (stripWs s0.toList).map Char.toUpper
  match s.getLast? with
  | some 'Y' =>
    (match pyFloat (String.mk s.dropLast) with
     | some q => Except.ok (some q)
     | Option.none => Except.error "ValueError")
  | some 'M' =>
    (match pyFloat (String.mk s.dropLast) with
     | some q => Except.ok (some (q / 12))
     | Option.none => Except.error "ValueError")
  | _ => Except.ok Option.none

/-- calculations._tenor_to_years: None passes through as None, numerics pass
through unchanged, strings go through the suffix parse. -/
def tenor_to_years_calc (v : PyVal) : Except String (Option ℚ) :=
  match v with
  | PyVal.pnone => Except.ok Option.none
  | PyVal.num q => Except.ok (some q)
  | PyVal.pstr s0 => tenorStrParse s0

/-- analytics.tenor_to_years: every non-string input yields None, strings go
through the suffix parse. -/
def tenor_to_years_analytics (v : PyVal) : Except String (Option ℚ) :=
  match v with
  | PyVal.pstr s0 => tenorStrParse s0
  | _ => Except.ok Option.none

end G10

namespace G10

/-- C10: for every input to hedge_proposal, the returned liquidity_score field
is the same constant round(0.4 + 0.3 + 0.075, 2) = 0.78, because the score is
always computed from the fixed default arguments (on the run, 1.0bp bid/ask,
50mm volume), never from the proposal inputs. -/
theorem c10_liquidity_score_constant (face coupon_pct ytm_pct T_years : ℚ)
    (df : List (ℚ × ℚ)) (sym : Option String) (fr : ℕ) :
    (hedge_proposal face coupon_pct ytm_pct T_years df sym fr).liquidity_score = 39 / 50 ∧
    pyRound 2 (liquidity_score true (some 1) (some 50)) = 39 / 50 ∧
    pyRound 2 (4/10 + 3/10 + 75/1000) = 39 / 50 ∧
    (39 : ℚ) / 50 = 78 / 100 := by
  have h1 : (hedge_proposal face coupon_pct ytm_pct T_years df sym fr).liquidity_score
      = pyRound 2 (liquidity_score true (some 1) (some 50)) := rfl
  have h2 : pyRound 2 (liquidity_score true (some 1) (some 50)) = 39 / 50 := by
    norm_num [liquidity_score, pyRound, roundHalfEven]
  refine ⟨h1.trans h2, h2, ?_, by norm_num⟩
  norm_num [pyRound, roundHalfEven]

end G10

namespace G10

/-- C8: the failing input for the tenor parser totality claim. Both tenor
parsers raise (modelled as Except.error) on the string MAY, whose uppercased
form ends in Y but whose prefix MA is not numeric, instead of mapping it to
None; on well formed inputs they behave as claimed: a number followed by Y
maps to that number, a number followed by M maps to the number divided by 12,
the calculations variant passes numerics through, and a string with no Y or M
suffix maps to None. -/
theorem c8_tenor_parser_raises_on_MAY :
    tenor_to_years_calc (PyVal.pstr "MAY") = Except.error "ValueError" ∧
    tenor_to_years_analytics (PyVal.pstr "MAY") = Except.error "ValueError" ∧
    tenor_to_years_calc (PyVal.pstr "10Y") = Except.ok (some 10) ∧
    tenor_to_years_calc (PyVal.pstr " 6m ") = Except.ok (some (1/2)) ∧
    tenor_to_years_calc (PyVal.num (5/2)) = Except.ok (some (5/2)) ∧
    tenor_to_years_calc (PyVal.pstr "5X") = Except.ok Option.none := by
  refine ⟨rfl, rfl, ?_, ?_, rfl, rfl⟩
  · have h : tenor_to_years_calc (PyVal.pstr "10Y")
        = Except.ok (some ((1 : ℚ) * ((10 : ℕ) : ℚ))) := rfl
    rw [h]; norm_num
  · have h : tenor_to_years_calc (PyVal.pstr " 6m ")
        = Except.ok (some ((1 : ℚ) * ((6 : ℕ) : ℚ) / 12)) := rfl
    rw [h]; norm_num

end G10

namespace G10

/-- C7: for a hedge proposal with a known futures symbol of positive per
contract DV01 and a usable swap curve, the futures leg reports
contracts = bondDv01 / dv01PerContract rounded to 2 decimals for display, and
the swap leg reports receiver fix notional = bondDv01 / swapDv01Per100 * 100
rounded to 4 decimals; in particular 50 / 85 is about 0.588 (stored rounded as
0.59, not an integer) and 50 / 8 * 100 = 625. -/
theorem c7_hedge_sizing (dv01B : ℚ) (df : List (ℚ × ℚ)) (s : String) (d t T : ℚ) (fr : ℕ)
    (hlook : futures_dv01_lookup s = some d) (hd : 0 < d)
    (hdf : df ≠ []) (ht : pick_nearest_swap_tenor df T = some t)
    (hpos : 0 < t * (1 / (fr : ℚ)) * 100) :
    (hedgeLegs dv01B df (some s) T fr).futures
      = some (FutLeg.ok s d (pyRound 2 (dv01B / d))) ∧
    (hedgeLegs dv01B df (some s) T fr).irs
      = IrsLeg.ok t (t * (1 / (fr : ℚ)) * 100)
          (pyRound 4 (dv01B / (t * (1 / (fr : ℚ)) * 100) * 100)) ∧
    pyRound 2 ((50 : ℚ) / 85) = 59 / 100 ∧
    |(50 : ℚ) / 85 - 588 / 1000| < 1 / 1000 ∧
    pyRound 4 ((50 : ℚ) / 8 * 100) = 625 := by
  have hs : s ≠ "" := by
    intro he
    rw [he] at hlook
    exact Option.noConfusion ((rfl : futures_dv01_lookup "" = Option.none).symm.trans hlook)
  have hempty : df.isEmpty = false := by
    cases df with
    | nil => exact absurd rfl hdf
    | cons a l => rfl
  refine ⟨?_, ?_, ?_, ?_, ?_⟩
  · simp only [hedgeLegs, hlook, if_neg hs, if_pos hd]
  · simp only [hedgeLegs, swap_dv01_from_par_curve, hempty, Bool.false_eq_true, if_false, ht,
      Option.map_some', if_pos hpos]
  · norm_num [pyRound, roundHalfEven]
  · norm_num [abs_lt]
  · norm_num [pyRound, roundHalfEven]

/-- C7 witness: the hedge sizing theorem applied to a concrete proposal with
bond DV01 50, symbol FGBL (85 per contract) and a swap curve whose nearest
tenor gives DV01 8 per 100. -/
theorem c7_hedge_sizing_witness :
    (hedgeLegs 50 [(16/100, 5)] (some "FGBL") (16/100) 2).futures
      = some (FutLeg.ok "FGBL" 85 (pyRound 2 (50 / 85))) ∧
    (hedgeLegs 50 [(16/100, 5)] (some "FGBL") (16/100) 2).irs
      = IrsLeg.ok (16/100) ((16/100) * (1 / (2 : ℚ)) * 100)
          (pyRound 4 (50 / ((16/100) * (1 / (2 : ℚ)) * 100) * 100)) := by
  have h := c7_hedge_sizing 50 [(16/100, 5)] "FGBL" 85 (16/100) (16/100) 2
    rfl (by norm_num) (by simp) rfl (by norm_num)
  exact ⟨h.1, (by exact_mod_cast h.2.1)⟩

end G10

namespace G10

/-- C9: a missing or invalid input for one hedge leg (empty swap curve,
unknown futures symbol, non positive per contract or per 100 DV01) yields a
structured unavailable marker on that leg only, while the bond DV01 and the
liquidity score of the same call are still computed and returned, and the
futures key is simply absent when no symbol was passed. -/
theorem c9_hedge_leg_isolation (face coupon_pct ytm_pct T_years : ℚ)
    (df : List (ℚ × ℚ)) (sym : Option String) (fr : ℕ) :
    (hedge_proposal face coupon_pct ytm_pct T_years df sym fr).dv01_bond
      = bond_dv01 face coupon_pct ytm_pct T_years 2 1 ∧
    (hedge_proposal face coupon_pct ytm_pct T_years df sym fr).liquidity_score
      = pyRound 2 (liquidity_score true (some 1) (some 50)) ∧
    (df = [] →
      (hedge_proposal face coupon_pct ytm_pct T_years df sym fr).irs = IrsLeg.unavailable) ∧
    (∀ s, sym = some s → s ≠ "" → futures_dv01_lookup s = Option.none →
      (hedge_proposal face coupon_pct ytm_pct T_years df sym fr).futures
        = some (FutLeg.unknown s)) ∧
    (∀ s d, sym = some s → s ≠ "" → futures_dv01_lookup s = some d → d ≤ 0 →
      (hedge_proposal face coupon_pct ytm_pct T_years df sym fr).futures
        = some (FutLeg.unknown s)) ∧
    (sym = Option.none →
      (hedge_proposal face coupon_pct ytm_pct T_years df sym fr).futures = Option.none) ∧
    (∀ t, pick_nearest_swap_tenor df T_years = some t → df ≠ [] →
      t * (1 / (fr : ℚ)) * 100 ≤ 0 →
      (hedge_proposal face coupon_pct ytm_pct T_years df sym fr).irs = IrsLeg.unavailable) := by
  refine ⟨rfl, rfl, ?_, ?_, ?_, ?_, ?_⟩
  · intro h
    subst h
    rfl
  · intro s hsym hs hlook
    subst hsym
    simp only [hedge_proposal, hedgeLegs, hlook, if_neg hs]
  · intro s d hsym hs hlook hd
    subst hsym
    simp only [hedge_proposal, hedgeLegs, hlook, if_neg hs, if_neg (not_lt.mpr hd)]
  · intro h
    subst h
    rfl
  · intro t ht hdf hle
    have hempty : df.isEmpty = false := by
      cases df with
      | nil => exact absurd rfl hdf
      | cons a l => rfl
    simp only [hedge_proposal, hedgeLegs, swap_dv01_from_par_curve, hempty,
      Bool.false_eq_true, if_false, ht, Option.map_some', if_neg (not_lt.mpr hle)]

/-- C9 witness: a call with an empty swap curve and an unknown futures symbol
still returns the bond DV01 and the liquidity score, with the swap leg marked
unavailable and the futures leg marked unknown. -/
theorem c9_hedge_leg_isolation_witness :
    (hedge_proposal 100 2 2 5 [] (some "XXX") 2).irs = IrsLeg.unavailable ∧
    (hedge_proposal 100 2 2 5 [] (some "XXX") 2).futures = some (FutLeg.unknown "XXX") ∧
    (hedge_proposal 100 2 2 5 [] (some "XXX") 2).dv01_bond = bond_dv01 100 2 2 5 2 1 ∧
    (hedge_proposal 100 2 2 5 [] (some "XXX") 2).liquidity_score
      = pyRound 2 (liquidity_score true (some 1) (some 50)) := by
  have h := c9_hedge_leg_isolation 100 2 2 5 [] (some "XXX") 2
  exact ⟨h.2.2.1 rfl, h.2.2.2.1 "XXX" rfl (by decide) rfl, h.1, h.2.1⟩

end G10

namespace G10

theorem clamp01_mem_Icc (x : ℚ) : EPS12 ≤ clamp01 x ∧ clamp01 x ≤ 1 := by
  constructor
  · exact le_max_right _ _
  · exact max_le (le_trans (min_le_right _ _) le_rfl) (by norm_num [EPS12])

theorem bondDFN_bounds (T : List (ℕ × ℚ)) (c : ℚ) (N : ℕ) :
    EPS12 ≤ bondDFN T c N ∧ bondDFN T c N ≤ 1 := by
  simpa [bondDFN] using clamp01_mem_Icc _

theorem swapDFN_bounds (T : List (ℕ × ℚ)) (S alpha : ℚ) (N : ℕ) :
    EPS12 ≤ swapDFN T S alpha N ∧ swapDFN T S alpha N ≤ 1 := by
  simpa [swapDFN] using clamp01_mem_Icc _

theorem bondDFN_forced (T : List (ℕ × ℚ)) (c : ℚ) (N : ℕ)
    (h : 100 - dfWeightedSum T c N ≤ EPS9) : bondDFN T c N = EPS12 := by
  simp only [bondDFN, if_pos h]
  norm_num [clamp01, EPS12, min_def, max_def]

theorem dfInsert_mem_or (T : List (ℕ × ℚ)) (k : ℕ) (v : ℚ) (e : ℕ × ℚ)
    (he : e ∈ dfInsert T k v) : e ∈ T ∨ e = (k, v) := by
  by_cases h : (T.find? (fun p => decide (p.1 = k))).isSome
  · rw [dfInsert, if_pos h] at he
    rcases List.mem_map.mp he with ⟨p, hp, hpe⟩
    by_cases hk : p.1 = k
    · right
      rw [if_pos hk] at hpe
      exact hpe.symm
    · left
      rw [if_neg hk] at hpe
      exact hpe ▸ hp
  · rw [dfInsert, if_neg h] at he
    rcases List.mem_append.mp he with h1 | h1
    · exact Or.inl h1
    · exact Or.inr (List.mem_singleton.mp h1)

theorem bondLoop_table_bounded (freq : ℕ) :
    ∀ (P T : List (ℕ × ℚ)), (∀ e ∈ T, EPS12 ≤ e.2 ∧ e.2 ≤ 1) →
      ∀ e ∈ (bondLoop freq T P).1, EPS12 ≤ e.2 ∧ e.2 ≤ 1 := by
  intro P
  induction P with
  | nil => intro T hT e he; exact hT e he
  | cons p rest ih =>
    intro T hT e he
    refine ih (dfInsert T p.1 (bondDFN T (p.2 / 100 / (freq : ℚ) * 100) p.1)) ?_ e he
    intro f hf
    rcases dfInsert_mem_or _ _ _ _ hf with h1 | h1
    · exact hT f h1
    · rw [h1]
      exact bondDFN_bounds _ _ _

theorem swapLoop_table_bounded (freq : ℕ) :
    ∀ (P T : List (ℕ × ℚ)), (∀ e ∈ T, EPS12 ≤ e.2 ∧ e.2 ≤ 1) →
      ∀ e ∈ (swapLoop freq T P).1, EPS12 ≤ e.2 ∧ e.2 ≤ 1 := by
  intro P
  induction P with
  | nil => intro T hT e he; exact hT e he
  | cons p rest ih =>
    intro T hT e he
    refine ih (dfInsert T p.1 (swapDFN T (p.2 / 100) (1 / (freq : ℚ)) p.1)) ?_ e he
    intro f hf
    rcases dfInsert_mem_or _ _ _ _ hf with h1 | h1
    · exact hT f h1
    · rw [h1]
      exact swapDFN_bounds _ _ _ _

/-- C3: after every iteration of either bootstrap loop (modelled by running the
loop on an arbitrary prefix of the prepared curve) every discount factor in
the accumulator table lies between 1e-12 and 1, and in the bond variant the
value stored is exactly 1e-12 whenever the numerator 100 - couponSum is at
most 1e-9. -/
theorem c3_df_table_invariant (pts : List (ℚ × ℚ)) (freq : ℕ) (i : ℕ) :
    (∀ k v, (k, v) ∈ (bondLoop freq [] ((prepCurve pts freq).take i)).1 →
      EPS12 ≤ v ∧ v ≤ 1) ∧
    (∀ k v, (k, v) ∈ (swapLoop freq [] ((prepCurve pts freq).take i)).1 →
      EPS12 ≤ v ∧ v ≤ 1) ∧
    (∀ T c N, 100 - dfWeightedSum T c N ≤ EPS9 → bondDFN T c N = EPS12) := by
  refine ⟨?_, ?_, fun T c N h => bondDFN_forced T c N h⟩
  · intro k v hkv
    exact bondLoop_table_bounded freq _ [] (by intro e he; cases he) (k, v) hkv
  · intro k v hkv
    exact swapLoop_table_bounded freq _ [] (by intro e he; cases he) (k, v) hkv

/-- C3 witness: the invariant applied to the one point bond curve (1y, 5pct)
at frequency 1, whose table after the first iteration is [(1, 20/21)]. -/
theorem c3_df_table_invariant_witness : EPS12 ≤ (20 : ℚ) / 21 ∧ (20 : ℚ) / 21 ≤ 1 := by
  have hprep : prepCurve [((1 : ℚ), (5 : ℚ))] 1 = [(1, 5)] := by
    norm_num [prepCurve, sortByYears, List.insertionSort, roundHalfEven, dedupByKey]
  have htab : (bondLoop 1 [] ((prepCurve [((1 : ℚ), (5 : ℚ))] 1).take 1)).1 = [(1, 20/21)] := by
    rw [hprep]
    norm_num [bondLoop, bondDFN, dfWeightedSum, lookupTerm, dfLookup, dfInsert, clamp01,
      EPS9, EPS12, List.range', min_def, max_def]
  exact (c3_df_table_invariant [((1 : ℚ), (5 : ℚ))] 1 1).1 1 (20/21) (by rw [htab]; simp)

end G10

namespace G10

/-- C1 counterexample: on the curve with one point (0.5y, yield -1pct) at
frequency 2 the claimed formula DF[1] = (100 - couponSum)/(100 + c) gives
200/199, but the bond bootstrapper stores the clamped value 1. -/
theorem c1_bond_formula_counterexample :
    (bondLoop 2 [] (prepCurve [((1 : ℚ)/2, (-1 : ℚ))] 2)).1 = [(1, 1)] ∧
    (100 - dfWeightedSum [] ((-1 : ℚ) / 100 / (2 : ℚ) * 100) 1)
        / (100 + ((-1 : ℚ) / 100 / (2 : ℚ) * 100)) ≠ 1 := by
  have hprep : prepCurve [((1 : ℚ)/2, (-1 : ℚ))] 2 = [(1, -1)] := by
    norm_num [prepCurve, sortByYears, List.insertionSort, roundHalfEven, dedupByKey]
  constructor
  · rw [hprep]
    norm_num [bondLoop, bondDFN, dfWeightedSum, lookupTerm, dfLookup, dfInsert, clamp01,
      EPS9, EPS12, List.range', min_def, max_def]
  · norm_num [dfWeightedSum, List.range']

/-- C2 counterexample: on the swap curve with one point (0.5y, rate -1pct) at
frequency 2 the claimed formula DF[1] = (1 - S annuity)/(1 + S alpha) gives
200/199, but the swap bootstrapper stores the clamped value 1. -/
theorem c2_swap_formula_counterexample :
    (swapLoop 2 [] (prepCurve [((1 : ℚ)/2, (-1 : ℚ))] 2)).1 = [(1, 1)] ∧
    (1 - ((-1 : ℚ) / 100) * dfWeightedSum [] (1 / (2 : ℚ)) 1)
        / (1 + ((-1 : ℚ) / 100) * (1 / (2 : ℚ))) ≠ 1 := by
  have hprep : prepCurve [((1 : ℚ)/2, (-1 : ℚ))] 2 = [(1, -1)] := by
    norm_num [prepCurve, sortByYears, List.insertionSort, roundHalfEven, dedupByKey]
  constructor
  · rw [hprep]
    norm_num [swapLoop, swapDFN, dfWeightedSum, lookupTerm, dfLookup, dfInsert, clamp01,
      EPS12, List.range', min_def, max_def]
  · norm_num [dfWeightedSum, List.range']

theorem bondLoop_rows_len (freq : ℕ) :
    ∀ (P T : List (ℕ × ℚ)), ((bondLoop freq T P).2).length = P.length := by
  intro P
  induction P with
  | nil => intro T; rfl
  | cons p rest ih => intro T; simp [bondLoop, ih]

theorem swapLoop_rows_len (freq : ℕ) :
    ∀ (P T : List (ℕ × ℚ)), ((swapLoop freq T P).2).length = P.length := by
  intro P
  induction P with
  | nil => intro T; rfl
  | cons p rest ih => intro T; simp [swapLoop, ih]

theorem bondLoop_rows_elem (freq : ℕ) :
    ∀ (P T : List (ℕ × ℚ)) (i : ℕ) (p : ℕ × ℚ), P[i]? = some p →
      ((bondLoop freq T P).2)[i]?
        = some (p.1, bondDFN (bondLoop freq T (P.take i)).1
            (p.2 / 100 / (freq : ℚ) * 100) p.1) := by
  intro P
  induction P with
  | nil => intro T i p hp; simp at hp
  | cons q rest ih =>
    intro T i p hp
    cases i with
    | zero =>
      simp only [List.getElem?_cons_zero, Option.some.injEq] at hp
      subst hp
      simp [bondLoop]
    | succ i =>
      simp only [List.getElem?_cons_succ] at hp
      simpa [bondLoop, List.take_succ_cons] using
        ih (dfInsert T q.1 (bondDFN T (q.2 / 100 / (freq : ℚ) * 100) q.1)) i p hp

theorem swapLoop_rows_elem (freq : ℕ) :
    ∀ (P T : List (ℕ × ℚ)) (i : ℕ) (p : ℕ × ℚ), P[i]? = some p →
      ((swapLoop freq T P).2)[i]?
        = some (p.1, swapDFN (swapLoop freq T (P.take i)).1
            (p.2 / 100) (1 / (freq : ℚ)) p.1) := by
  intro P
  induction P with
  | nil => intro T i p hp; simp at hp
  | cons q rest ih =>
    intro T i p hp
    cases i with
    | zero =>
      simp only [List.getElem?_cons_zero, Option.some.injEq] at hp
      subst hp
      simp [swapLoop]
    | succ i =>
      simp only [List.getElem?_cons_succ] at hp
      simpa [swapLoop, List.take_succ_cons] using
        ih (dfInsert T q.1 (swapDFN T (q.2 / 100) (1 / (freq : ℚ)) q.1)) i p hp

end G10

namespace G10

theorem lookupTerm_eq (T : List (ℕ × ℚ)) (w : ℚ) (k : ℕ) :
    lookupTerm T w k = w * (dfLookup T k).getD 0 := by
  cases h : dfLookup T k <;> simp [lookupTerm, h]

theorem dfWeightedSum_eq_mul_sum (T : List (ℕ × ℚ)) (w : ℚ) (N : ℕ) :
    dfWeightedSum T w N
      = w * (((List.range' 1 (N - 1)).map (fun k => (dfLookup T k).getD 0)).sum) := by
  unfold dfWeightedSum
  induction (List.range' 1 (N - 1)) with
  | nil => simp
  | cons k l ih => simp [lookupTerm_eq, ih, mul_add]

theorem dedupByKey_subset : ∀ (l : List (ℕ × ℚ)), ∀ e ∈ dedupByKey l, e ∈ l
  | [] => by simp [dedupByKey]
  | p :: rest => by
    intro e he
    rw [dedupByKey] at he
    rcases List.mem_cons.mp he with h | h
    · exact h ▸ List.mem_cons_self _ _
    · exact List.mem_cons_of_mem _
        (List.mem_of_mem_filter (dedupByKey_subset _ e h))
termination_by l => l.length
decreasing_by
  simp only [List.length_cons]
  exact Nat.lt_succ_of_le (List.length_filter_le _ _)

theorem prepCurve_key_pos (pts : List (ℚ × ℚ)) (freq : ℕ) :
    ∀ p ∈ prepCurve pts freq, 1 ≤ p.1 := by
  intro p hp
  have h1 := dedupByKey_subset _ p hp
  rcases List.mem_map.mp h1 with ⟨q, hq, hqe⟩
  have h2 := List.of_mem_filter hq
  have h3 : (0 : ℤ) < q.1 := of_decide_eq_true h2
  have h4 : p.1 = q.1.toNat := by rw [← hqe]
  omega

end G10

namespace G10

/-- C2 (amended): per retained point of the prepared swap curve, in ascending
years order, the swap bootstrapper stores DF[N] equal to the clamp into
[1e-12, 1] of (1 - S * annuity) / (1 + S * alpha), where S is the quoted rate
over 100, alpha = 1/frequency and annuity = alpha * sum of the discount
factors DF[k] already present in the table for k < N. The claim as stated
omits the clamp; see the counterexample. -/
theorem c2_swap_bootstrap_amended (pts : List (ℚ × ℚ)) (freq : ℕ) (i : ℕ) (p : ℕ × ℚ)
    (hp : (prepCurve pts freq)[i]? = some p) :
    ((swapLoop freq [] (prepCurve pts freq)).2)[i]?
      = some (p.1,
          clamp01 ((1 - (p.2 / 100) *
              ((1 / (freq : ℚ)) *
                (((List.range' 1 (p.1 - 1)).map
                  (fun k => (dfLookup (swapLoop freq [] ((prepCurve pts freq).take i)).1
                    k).getD 0)).sum)))
            / (1 + (p.2 / 100) * (1 / (freq : ℚ))))) := by
  rw [swapLoop_rows_elem freq _ [] i p hp]
  simp only [swapDFN, dfWeightedSum_eq_mul_sum]

/-- C2 witness: the swap characterization applied to the flat 4pct two point
curve at frequency 1; the second stored discount factor is 625/676. -/
theorem c2_swap_bootstrap_amended_witness :
    ((swapLoop 1 [] (prepCurve [((1 : ℚ), (4 : ℚ)), ((2 : ℚ), (4 : ℚ))] 1)).2)[1]?
      = some (2, 625 / 676) := by
  have hprep : prepCurve [((1 : ℚ), (4 : ℚ)), ((2 : ℚ), (4 : ℚ))] 1 = [(1, 4), (2, 4)] := by
    norm_num [prepCurve, sortByYears, List.insertionSort, List.orderedInsert, leY,
      roundHalfEven, dedupByKey, List.filter_cons,
      (show Int.toNat 1 = 1 from rfl), (show Int.toNat 2 = 2 from rfl)]
  have hp : (prepCurve [((1 : ℚ), (4 : ℚ)), ((2 : ℚ), (4 : ℚ))] 1)[1]? = some (2, 4) := by
    rw [hprep]
    simp
  have h := c2_swap_bootstrap_amended [((1 : ℚ), (4 : ℚ)), ((2 : ℚ), (4 : ℚ))] 1 1 (2, 4) hp
  rw [h, hprep]
  norm_num [swapLoop, swapDFN, dfWeightedSum, lookupTerm, dfLookup, dfInsert, clamp01,
    EPS12, List.range', min_def, max_def]

end G10

namespace G10

/-- C1 (amended): for every curve, positive frequency at most 1e12 and
compounding mode, the bond bootstrapper output is sorted ascending by years
and is a permutation of the emitted rows (N/freq, 100 * zero) over the
prepared curve (sorted by years, N = round(years*freq), N at most 0 discarded,
duplicate N dropped keeping the first, so every retained N is at least 1); the
i-th retained point stores DF equal to the clamp into [1e-12, 1] of
(100 - couponSum)/(100 + c) — 1e-12 forced when 100 - couponSum is at most
1e-9 — where c is the periodic coupon and couponSum sums c * DF[k] over the
indices k < N already present in the table; and the emitted zero is
-ln(DF) * freq / N under continuous compounding and DF ^ (-freq/N) - 1
otherwise. The claim as stated omits the clamp; see the counterexample. -/
theorem c1_bond_bootstrap_amended (pts : List (ℚ × ℚ)) (freq : ℕ) (comp : String)
    (h1 : 0 < freq) (h2 : (freq : ℚ) ≤ 10 ^ 12) :
    (bootstrap_zero_from_par pts freq comp).Sorted leYR ∧
    List.Perm (bootstrap_zero_from_par pts freq comp)
      (((bondLoop freq [] (prepCurve pts freq)).2).map
        (fun p => ((p.1 : ℚ) / (freq : ℚ), 100 * zeroYield comp p.2 ((p.1 : ℚ) / (freq : ℚ))))) ∧
    (∀ p ∈ prepCurve pts freq, 1 ≤ p.1) ∧
    (∀ (i : ℕ) (p : ℕ × ℚ), (prepCurve pts freq)[i]? = some p →
      ((bondLoop freq [] (prepCurve pts freq)).2)[i]?
        = some (p.1,
            clamp01 (if 100 - (p.2 / 100 / (freq : ℚ) * 100) *
                (((List.range' 1 (p.1 - 1)).map
                  (fun k => (dfLookup (bondLoop freq [] ((prepCurve pts freq).take i)).1
                    k).getD 0)).sum) ≤ EPS9
              then EPS12
              else (100 - (p.2 / 100 / (freq : ℚ) * 100) *
                  (((List.range' 1 (p.1 - 1)).map
                    (fun k => (dfLookup (bondLoop freq [] ((prepCurve pts freq).take i)).1
                      k).getD 0)).sum))
                / (100 + p.2 / 100 / (freq : ℚ) * 100)))) ∧
    (∀ (N : ℕ) (df : ℚ), 1 ≤ N →
      (100 : ℝ) * zeroYield comp df ((N : ℚ) / (freq : ℚ))
        = if comp = "cont"
          then 100 * (-Real.log (df : ℝ) * (freq : ℝ) / (N : ℝ))
          else 100 * ((df : ℝ) ^ (-(freq : ℝ) / (N : ℝ)) - 1)) := by
  have hrfl : bootstrap_zero_from_par pts freq comp
      = List.insertionSort leYR
        (((bondLoop freq [] (prepCurve pts freq)).2).map
          (fun p => ((p.1 : ℚ) / (freq : ℚ),
            100 * zeroYield comp p.2 ((p.1 : ℚ) / (freq : ℚ))))) := rfl
  have hfR : (0 : ℝ) < (freq : ℝ) := by exact_mod_cast h1
  refine ⟨?_, ?_, prepCurve_key_pos pts freq, ?_, ?_⟩
  · rw [hrfl]
    exact List.sorted_insertionSort leYR _
  · rw [hrfl]
    exact List.perm_insertionSort leYR _
  · intro i p hp
    rw [bondLoop_rows_elem freq _ [] i p hp]
    simp only [bondDFN, dfWeightedSum_eq_mul_sum]
  · intro N df hN
    have hNR : (1 : ℝ) ≤ (N : ℝ) := by exact_mod_cast hN
    have hfle : (freq : ℝ) ≤ 10 ^ 12 := by exact_mod_cast h2
    have hmax : max (((N : ℚ) / (freq : ℚ) : ℚ) : ℝ) ((1 : ℝ) / 10 ^ 12)
        = (((N : ℚ) / (freq : ℚ) : ℚ) : ℝ) := by
      rw [max_eq_left]
      push_cast
      rw [div_le_div_iff₀ (by norm_num) hfR]
      nlinarith
    have hN0 : (N : ℝ) ≠ 0 := by intro h; rw [h] at hNR; linarith
    have hf0 : (freq : ℝ) ≠ 0 := ne_of_gt hfR
    by_cases hc : comp = "cont"
    · simp only [zeroYield, if_pos hc, hmax]
      push_cast
      field_simp
    · simp only [zeroYield, if_neg hc, hmax]
      have hexp : -(1 : ℝ) / (((N : ℚ) / (freq : ℚ) : ℚ) : ℝ) = -(freq : ℝ) / (N : ℝ) := by
        push_cast
        field_simp
      rw [hexp]

end G10

namespace G10

/-- C1 witness: the bond characterization applied to the one point curve
(1y, 5pct) at frequency 1 with continuous compounding; the output is sorted
and the stored discount factor is 100/105 = 20/21. -/
theorem c1_bond_bootstrap_amended_witness :
    (bootstrap_zero_from_par [((1 : ℚ), (5 : ℚ))] 1 "cont").Sorted leYR ∧
    ((bondLoop 1 [] (prepCurve [((1 : ℚ), (5 : ℚ))] 1)).2)[0]? = some (1, 20 / 21) := by
  have h := c1_bond_bootstrap_amended [((1 : ℚ), (5 : ℚ))] 1 "cont" (by norm_num) (by norm_num)
  refine ⟨h.1, ?_⟩
  have hprep : prepCurve [((1 : ℚ), (5 : ℚ))] 1 = [(1, 5)] := by
    norm_num [prepCurve, sortByYears, List.insertionSort, roundHalfEven, dedupByKey]
  have hp : (prepCurve [((1 : ℚ), (5 : ℚ))] 1)[0]? = some (1, 5) := by
    rw [hprep]
    simp
  have hc := h.2.2.2.1 0 (1, 5) hp
  rw [hc]
  norm_num [clamp01, EPS9, EPS12, List.range', min_def, max_def]

end G10

namespace G10

theorem bondLoop_rows_keys (freq : ℕ) :
    ∀ (P T : List (ℕ × ℚ)), ((bondLoop freq T P).2).map Prod.fst = P.map Prod.fst := by
  intro P
  induction P with
  | nil => intro T; rfl
  | cons p rest ih => intro T; simp [bondLoop, ih]

theorem bondLoop_rows_bounds (freq : ℕ) :
    ∀ (P T : List (ℕ × ℚ)), ∀ e ∈ (bondLoop freq T P).2, EPS12 ≤ e.2 ∧ e.2 ≤ 1 := by
  intro P
  induction P with
  | nil => intro T e he; cases he
  | cons p rest ih =>
    intro T e he
    rcases List.mem_cons.mp (by simpa [bondLoop] using he) with h | h
    · rw [h]
      exact bondDFN_bounds _ _ _
    · exact ih _ e h

theorem bondLoop_take_rows (freq : ℕ) :
    ∀ (P T : List (ℕ × ℚ)) (i : ℕ),
      (bondLoop freq T (P.take i)).2 = ((bondLoop freq T P).2).take i := by
  intro P
  induction P with
  | nil => intro T i; simp [bondLoop]
  | cons p rest ih =>
    intro T i
    cases i with
    | zero => rfl
    | succ i => simp [bondLoop, List.take_succ_cons, ih]

theorem bondLoop_table_eq_rows (freq : ℕ) :
    ∀ (P T : List (ℕ × ℚ)), (P.map Prod.fst).Nodup →
      (∀ k ∈ P.map Prod.fst, T.find? (fun q => decide (q.1 = k)) = Option.none) →
      (bondLoop freq T P).1 = T ++ (bondLoop freq T P).2 := by
  intro P
  induction P with
  | nil => intro T _ _; simp [bondLoop]
  | cons p rest ih =>
    intro T hnd hfresh
    have hfind : T.find? (fun q => decide (q.1 = p.1)) = Option.none :=
      hfresh p.1 (by simp)
    have hins : dfInsert T p.1 (bondDFN T (p.2 / 100 / (freq : ℚ) * 100) p.1)
        = T ++ [(p.1, bondDFN T (p.2 / 100 / (freq : ℚ) * 100) p.1)] := by
      rw [dfInsert, if_neg (by rw [hfind]; simp)]
    have hnd2 : (rest.map Prod.fst).Nodup := (List.nodup_cons.mp (by simpa using hnd)).2
    have hnotmem : p.1 ∉ rest.map Prod.fst := (List.nodup_cons.mp (by simpa using hnd)).1
    have hfresh2 : ∀ k ∈ rest.map Prod.fst,
        (T ++ [(p.1, bondDFN T (p.2 / 100 / (freq : ℚ) * 100) p.1)]).find?
          (fun q => decide (q.1 = k)) = Option.none := by
      intro k hk
      rw [List.find?_append, hfresh k (by simp [hk]), Option.none_or]
      have hne : p.1 ≠ k := fun h => hnotmem (h ▸ hk)
      simp [List.find?, hne]
    have := ih (T ++ [(p.1, bondDFN T (p.2 / 100 / (freq : ℚ) * 100) p.1)]) hnd2 hfresh2
    simp only [bondLoop, hins, this, List.append_assoc, List.singleton_append]

theorem range'_take : ∀ (i n s : ℕ), i ≤ n → (List.range' s n).take i = List.range' s i := by
  intro i
  induction i with
  | zero => intro n s _; simp
  | succ i ih =>
    intro n s h
    cases n with
    | zero => omega
    | succ n =>
      rw [List.range'_succ, List.take_succ_cons, ih n (s + 1) (by omega), List.range'_succ]

theorem dfLookup_cons_self (s : ℕ) (v : ℚ) (L : List (ℕ × ℚ)) :
    dfLookup ((s, v) :: L) s = some v := by
  simp [dfLookup, List.find?]

theorem dfLookup_cons_ne (k s : ℕ) (h : k ≠ s) (v : ℚ) (L : List (ℕ × ℚ)) :
    dfLookup ((s, v) :: L) k = dfLookup L k := by
  have hsk : ¬ (s = k) := fun hh => h hh.symm
  simp [dfLookup, List.find?_cons, hsk]

theorem sum_dfLookup_complete :
    ∀ (L : List (ℕ × ℚ)) (s m : ℕ), L.map Prod.fst = List.range' s m →
      ((List.range' s m).map (fun k => (dfLookup L k).getD 0)).sum
        = (L.map Prod.snd).sum := by
  intro L
  induction L with
  | nil =>
    intro s m h
    have : m = 0 := by
      by_contra hm
      cases m with
      | zero => exact hm rfl
      | succ m => rw [List.range'_succ] at h; cases h
    subst this
    simp
  | cons e L ih =>
    intro s m h
    obtain ⟨k0, v0⟩ := e
    cases m with
    | zero => simp at h
    | succ m =>
      rw [List.range'_succ] at h
      simp only [List.map_cons, List.cons.injEq] at h
      obtain ⟨he, hL⟩ := h
      subst he
      rw [List.range'_succ]
      simp only [List.map_cons, List.sum_cons]
      have h1 : dfLookup ((k0, v0) :: L) k0 = some v0 := dfLookup_cons_self k0 v0 L
      have h2 : (List.range' (k0 + 1) m).map (fun k => (dfLookup ((k0, v0) :: L) k).getD 0)
          = (List.range' (k0 + 1) m).map (fun k => (dfLookup L k).getD 0) := by
        apply List.map_congr_left
        intro k hk
        have hks : k ≠ k0 := by
          have := (List.mem_range'_1.mp hk).1
          omega
        rw [dfLookup_cons_ne k k0 hks]
      rw [h1, h2, ih (k0 + 1) m hL]
      simp

end G10

namespace G10

/-- C4 (amended): for a par curve whose prepared period grid is complete and
consecutive (N = 1, 2, ...), whose quoted rates are strictly positive and
nondecreasing in maturity, and for which no numerical safeguard fires (each
stored discount factor equals the unclamped par solution), the bond
bootstrapper produces strictly decreasing discount factors, each in (0, 1].
The claim as stated (positive rates alone) is false; see the counterexample
where a steeply inverted curve gives increasing discount factors. -/
theorem c4_monotone_df_amended (pts : List (ℚ × ℚ)) (freq : ℕ)
    (hf : 0 < freq)
    (hgrid : (prepCurve pts freq).map Prod.fst = List.range' 1 (prepCurve pts freq).length)
    (hpos : ∀ p ∈ prepCurve pts freq, 0 < p.2)
    (hmono : ((prepCurve pts freq).map Prod.snd).Pairwise (· ≤ ·))
    (hnc : ∀ (i : ℕ) (p : ℕ × ℚ), (prepCurve pts freq)[i]? = some p →
      bondDFN (bondLoop freq [] ((prepCurve pts freq).take i)).1
          (p.2 / 100 / (freq : ℚ) * 100) p.1
        = (100 - dfWeightedSum (bondLoop freq [] ((prepCurve pts freq).take i)).1
              (p.2 / 100 / (freq : ℚ) * 100) p.1)
          / (100 + p.2 / 100 / (freq : ℚ) * 100)) :
    (((bondLoop freq [] (prepCurve pts freq)).2).map Prod.snd).Pairwise (· > ·) ∧
    ∀ v ∈ ((bondLoop freq [] (prepCurve pts freq)).2).map Prod.snd, 0 < v ∧ v ≤ 1 := by
  set P := prepCurve pts freq with hPdef
  set R := (bondLoop freq [] P).2 with hRdef
  set V := R.map Prod.snd with hVdef
  have hfQ : (0 : ℚ) < (freq : ℚ) := by exact_mod_cast hf
  have hRlen : R.length = P.length := bondLoop_rows_len freq P []
  have hVlen : V.length = P.length := by rw [hVdef, List.length_map, hRlen]
  have hbounds : ∀ e ∈ R, EPS12 ≤ e.2 ∧ e.2 ≤ 1 := bondLoop_rows_bounds freq P []
  have hmemV : ∀ v ∈ V, 0 < v ∧ v ≤ 1 := by
    intro v hv
    rcases List.mem_map.mp hv with ⟨e, he, hev⟩
    have hb := hbounds e he
    rw [← hev]
    exact ⟨lt_of_lt_of_le (by norm_num [EPS12]) hb.1, hb.2⟩
  refine ⟨?_, hmemV⟩
  have hkeysNodup : (P.map Prod.fst).Nodup := by
    rw [hgrid]
    exact List.nodup_range' 1 P.length
  have htable : ∀ i : ℕ, (bondLoop freq [] (P.take i)).1 = R.take i := by
    intro i
    have hnd : ((P.take i).map Prod.fst).Nodup := by
      rw [List.map_take]
      exact (List.take_sublist _ _).nodup hkeysNodup
    have hfr : ∀ k ∈ (P.take i).map Prod.fst,
        (([] : List (ℕ × ℚ)).find? (fun q => decide (q.1 = k))) = Option.none := by
      intro k _
      rfl
    rw [bondLoop_table_eq_rows freq (P.take i) [] hnd hfr, List.nil_append,
      bondLoop_take_rows]
  have hkey? : ∀ (j : ℕ) (p : ℕ × ℚ), P[j]? = some p → p.1 = 1 + j := by
    intro j p hp
    have hjL : j < P.length := by
      by_contra hc
      rw [List.getElem?_eq_none (by omega)] at hp
      cases hp
    have h2 : (P.map Prod.fst)[j]? = (List.range' 1 P.length)[j]? := by rw [hgrid]
    rw [List.getElem?_map, hp] at h2
    have h3 : (List.range' 1 P.length)[j]? = some (1 + j) := by
      have hjr : j < (List.range' 1 P.length).length := by simpa using hjL
      rw [List.getElem?_eq_getElem hjr, List.getElem_range'_1]
    rw [h3] at h2
    exact Option.some.inj h2
  have hstep : ∀ (j : ℕ) (p : ℕ × ℚ), P[j]? = some p →
      R[j]? = some (p.1,
        (100 - (p.2 / 100 / (freq : ℚ) * 100) * ((V.take j).sum))
          / (100 + p.2 / 100 / (freq : ℚ) * 100)) := by
    intro j p hp
    have hjL : j < P.length := by
      by_contra hc
      rw [List.getElem?_eq_none (by omega)] at hp
      cases hp
    have h1 := bondLoop_rows_elem freq P [] j p hp
    have hnc2 := hnc j p hp
    rw [htable j] at h1 hnc2
    have hkeys : (R.take j).map Prod.fst = List.range' 1 j := by
      rw [List.map_take, bondLoop_rows_keys, hgrid, range'_take j P.length 1 (le_of_lt hjL)]
    have hsum : dfWeightedSum (R.take j) (p.2 / 100 / (freq : ℚ) * 100) p.1
        = (p.2 / 100 / (freq : ℚ) * 100) * ((V.take j).sum) := by
      rw [dfWeightedSum_eq_mul_sum]
      congr 1
      have hj1 : p.1 - 1 = j := by
        have := hkey? j p hp
        omega
      rw [hj1, sum_dfLookup_complete (R.take j) 1 j hkeys, hVdef, List.map_take]
    rw [hnc2, hsum] at h1
    exact h1
  have hmono? : ∀ (i j : ℕ) (pi pj : ℕ × ℚ), i < j →
      P[i]? = some pi → P[j]? = some pj → pi.2 ≤ pj.2 := by
    intro i j pi pj hij hpi hpj
    have hiL : i < P.length := by
      by_contra hc
      rw [List.getElem?_eq_none (by omega)] at hpi
      cases hpi
    have hjL : j < P.length := by
      by_contra hc
      rw [List.getElem?_eq_none (by omega)] at hpj
      cases hpj
    have hm := List.pairwise_iff_get.mp hmono
      ⟨i, by simpa using hiL⟩ ⟨j, by simpa using hjL⟩ (by simpa using hij)
    simp only [List.get_eq_getElem, List.getElem_map] at hm
    rw [List.getElem?_eq_getElem hiL] at hpi
    rw [List.getElem?_eq_getElem hjL] at hpj
    rw [← Option.some.inj hpi, ← Option.some.inj hpj]
    exact hm
  rw [← List.chain'_iff_pairwise, List.chain'_iff_get]
  intro i hi
  have hi1V : i + 1 < V.length := by omega
  have hi0V : i < V.length := by omega
  have hi1P : i + 1 < P.length := by omega
  have hi0P : i < P.length := by omega
  have hp1 : P[i]? = some P[i] := List.getElem?_eq_getElem hi0P
  have hp2 : P[i + 1]? = some P[i + 1] := List.getElem?_eq_getElem hi1P
  have hs1 := hstep i P[i] hp1
  have hs2 := hstep (i + 1) P[i + 1] hp2
  have hVi : V[i]? = some ((100 - (P[i].2 / 100 / (freq : ℚ) * 100) * ((V.take i).sum))
      / (100 + P[i].2 / 100 / (freq : ℚ) * 100)) := by
    rw [hVdef, List.getElem?_map, hs1]
    rfl
  have hVi1 : V[i + 1]? = some
      ((100 - (P[i + 1].2 / 100 / (freq : ℚ) * 100) * ((V.take (i + 1)).sum))
        / (100 + P[i + 1].2 / 100 / (freq : ℚ) * 100)) := by
    rw [hVdef, List.getElem?_map, hs2]
    rfl
  set c1 : ℚ := P[i].2 / 100 / (freq : ℚ) * 100 with hc1def
  set c2 : ℚ := P[i + 1].2 / 100 / (freq : ℚ) * 100 with hc2def
  set A : ℚ := (V.take i).sum with hAdef
  set x : ℚ := (100 - c1 * A) / (100 + c1) with hxdef
  have hVix : V[i] = x := Option.some.inj ((List.getElem?_eq_getElem hi0V).symm.trans hVi)
  have hA1 : (V.take (i + 1)).sum = A + x := by
    rw [List.take_succ, List.getElem?_eq_getElem hi0V, hVix]
    simp [hAdef]
  set y : ℚ := (100 - c2 * (A + x)) / (100 + c2) with hydef
  have hViy : V[i + 1] = y := by
    rw [hA1] at hVi1
    exact Option.some.inj ((List.getElem?_eq_getElem hi1V).symm.trans hVi1)
  have hc1pos : 0 < c1 := by
    rw [hc1def]
    have := hpos P[i] (List.getElem_mem hi0P)
    have h100 : (0 : ℚ) < 100 := by norm_num
    exact mul_pos (div_pos (div_pos this h100) hfQ) h100
  have hc2pos : 0 < c2 := by
    rw [hc2def]
    have := hpos P[i + 1] (List.getElem_mem hi1P)
    have h100 : (0 : ℚ) < 100 := by norm_num
    exact mul_pos (div_pos (div_pos this h100) hfQ) h100
  have hcc : c1 ≤ c2 := by
    rw [hc1def, hc2def]
    have := hmono? i (i + 1) P[i] P[i + 1] (by omega) hp1 hp2
    have h1 : P[i].2 / 100 ≤ P[i + 1].2 / 100 := by linarith
    have h2 : P[i].2 / 100 / (freq : ℚ) ≤ P[i + 1].2 / 100 / (freq : ℚ) :=
      (div_le_div_iff_of_pos_right hfQ).mpr h1
    linarith [h2]
  have hA0 : 0 ≤ A := by
    rw [hAdef]
    apply List.sum_nonneg
    intro v hv
    exact le_of_lt (hmemV v (List.take_subset _ _ hv)).1
  have hx0 : 0 < x := by
    rw [← hVix]
    exact (hmemV V[i] (List.getElem_mem hi0V)).1
  have hd1 : (0 : ℚ) < 100 + c1 := by linarith
  have hd2 : (0 : ℚ) < 100 + c2 := by linarith
  have e1 : x * (100 + c1) = 100 - c1 * A := by
    rw [hxdef, div_mul_cancel₀ _ (ne_of_gt hd1)]
  have e2 : y * (100 + c2) = 100 - c2 * (A + x) := by
    rw [hydef, div_mul_cancel₀ _ (ne_of_gt hd2)]
  have hkey2 : (x - y) * (100 + c2) = (2 * c2 - c1) * x + (c2 - c1) * A := by
    linear_combination e1 - e2
  have hrhs : 0 < (2 * c2 - c1) * x + (c2 - c1) * A :=
    add_pos_of_pos_of_nonneg (mul_pos (by linarith) hx0)
      (mul_nonneg (by linarith) hA0)
  have h6 : 0 < (x - y) * (100 + c2) := hkey2 ▸ hrhs
  have hxy : y < x := by nlinarith [h6, hd2]
  show V.get ⟨i, by omega⟩ > V.get ⟨i + 1, by omega⟩
  simp only [List.get_eq_getElem]
  rw [hVix, hViy]
  exact hxy

end G10

namespace G10

/-- C4 counterexample: the curve quoting 100pct at 1y and 0.01pct at 2y at
frequency 1 has strictly positive rates and the complete consecutive grid
N = 1, 2, yet the bootstrapped discount factors are 1/2 followed by
19999/20002, which is strictly larger — the claimed strict decrease fails. -/
theorem c4_monotone_df_counterexample :
    (∀ p ∈ prepCurve [((1 : ℚ), (100 : ℚ)), ((2 : ℚ), (1 : ℚ)/100)] 1, 0 < p.2) ∧
    (prepCurve [((1 : ℚ), (100 : ℚ)), ((2 : ℚ), (1 : ℚ)/100)] 1).map Prod.fst
      = List.range' 1 (prepCurve [((1 : ℚ), (100 : ℚ)), ((2 : ℚ), (1 : ℚ)/100)] 1).length ∧
    ((bondLoop 1 [] (prepCurve [((1 : ℚ), (100 : ℚ)), ((2 : ℚ), (1 : ℚ)/100)] 1)).2).map Prod.snd
      = [1/2, 19999/20002] ∧
    ¬ ((19999 : ℚ)/20002 < 1/2) := by
  have hprep : prepCurve [((1 : ℚ), (100 : ℚ)), ((2 : ℚ), (1 : ℚ)/100)] 1
      = [(1, 100), (2, 1/100)] := by
    norm_num [prepCurve, sortByYears, List.insertionSort, List.orderedInsert, leY,
      roundHalfEven, dedupByKey, List.filter_cons,
      (show Int.toNat 1 = 1 from rfl), (show Int.toNat 2 = 2 from rfl)]
  refine ⟨?_, ?_, ?_, by norm_num⟩
  · rw [hprep]
    intro p hp
    rcases List.mem_cons.mp hp with h | h
    · rw [h]; norm_num
    · rcases List.mem_cons.mp h with h2 | h2
      · rw [h2]; norm_num
      · cases h2
  · rw [hprep]
    norm_num [List.range']
  · rw [hprep]
    norm_num [bondLoop, bondDFN, dfWeightedSum, lookupTerm, dfLookup, dfInsert, clamp01,
      EPS9, EPS12, List.range', min_def, max_def, List.find?]

/-- C4 witness: the amended monotonicity theorem applied to the upward sloping
curve (1y, 2pct), (2y, 3pct) at frequency 1: the discount factors are
strictly decreasing. -/
theorem c4_monotone_df_amended_witness :
    (((bondLoop 1 [] (prepCurve [((1 : ℚ), (2 : ℚ)), ((2 : ℚ), (3 : ℚ))] 1)).2).map
      Prod.snd).Pairwise (· > ·) := by
  have hprep : prepCurve [((1 : ℚ), (2 : ℚ)), ((2 : ℚ), (3 : ℚ))] 1 = [(1, 2), (2, 3)] := by
    norm_num [prepCurve, sortByYears, List.insertionSort, List.orderedInsert, leY,
      roundHalfEven, dedupByKey, List.filter_cons,
      (show Int.toNat 1 = 1 from rfl), (show Int.toNat 2 = 2 from rfl)]
  refine (c4_monotone_df_amended [((1 : ℚ), (2 : ℚ)), ((2 : ℚ), (3 : ℚ))] 1 (by norm_num)
    ?_ ?_ ?_ ?_).1
  · rw [hprep]
    norm_num [List.range']
  · rw [hprep]
    intro p hp
    rcases List.mem_cons.mp hp with h | h
    · rw [h]; norm_num
    · rcases List.mem_cons.mp h with h2 | h2
      · rw [h2]; norm_num
      · cases h2
  · rw [hprep]
    norm_num [List.pairwise_cons]
  · rw [hprep]
    intro i p hp
    match i with
    | 0 =>
      simp only [List.getElem?_cons_zero, Option.some.injEq] at hp
      subst hp
      norm_num [bondLoop, bondDFN, dfWeightedSum, lookupTerm, dfLookup, dfInsert, clamp01,
        EPS9, EPS12, List.range', min_def, max_def, List.find?]
    | 1 =>
      simp only [List.getElem?_cons_succ, List.getElem?_cons_zero, Option.some.injEq] at hp
      subst hp
      norm_num [bondLoop, bondDFN, dfWeightedSum, lookupTerm, dfLookup, dfInsert, clamp01,
        EPS9, EPS12, List.range', min_def, max_def, List.find?]
    | (n + 2) =>
      simp at hp

end G10

namespace G10

theorem nearestRef_spec (x tol : ℚ) :
    ∀ (b : List (ℚ × ℚ)) (q : ℚ × ℚ), nearestRef x tol b = some q →
      q ∈ b ∧ |q.1 - x| ≤ tol := by
  intro b
  induction b with
  | nil => intro q h; cases h
  | cons p rest ih =>
    intro q h
    rw [nearestRef] at h
    cases hrec : nearestRef x tol rest with
    | none =>
      rw [hrec] at h
      dsimp only at h
      by_cases hc : |p.1 - x| ≤ tol
      · rw [if_pos hc] at h
        exact ⟨(Option.some.inj h) ▸ List.mem_cons_self _ _,
          (Option.some.inj h) ▸ hc⟩
      · rw [if_neg hc] at h
        cases h
    | some q2 =>
      rw [hrec] at h
      dsimp only at h
      by_cases hc : |p.1 - x| ≤ tol ∧ |p.1 - x| ≤ |q2.1 - x|
      · rw [if_pos hc] at h
        exact ⟨(Option.some.inj h) ▸ List.mem_cons_self _ _,
          (Option.some.inj h) ▸ hc.1⟩
      · rw [if_neg hc] at h
        have := ih q2 hrec
        exact ⟨List.mem_cons_of_mem _ ((Option.some.inj h) ▸ this.1),
          (Option.some.inj h) ▸ this.2⟩

/-- C5 (amended): the spread alignment joins on exact equality of the years
key — not on years rounded to 1e-6 precision, which the source uses only in a
different routine — and the nearest-neighbour fallback runs exactly when that
strict join is empty or has fewer rows than max(2, floor(30pct of the smaller
cleaned length)); fallback rows pair each target maturity with a reference
maturity within the tolerance window, and the claimed example holds: target
years [2,5,10] against reference years [2.05,5.1,9.9] match all three pairs
at tolerance 0.15 and none at tolerance 0.02. -/
theorem c5_alignment_amended :
    (∀ (dft dfr : List (ℚ × ℚ)) (tol : ℚ), ∀ r ∈ add_spread_vs_ref_par dft dfr tol,
      ∃ yr rr y2, (r.1, yr) ∈ cleanCurve dft ∧ (y2, rr) ∈ cleanCurve dfr ∧
        r.2 = (yr - rr) * 100 ∧ (y2 = r.1 ∨ |y2 - r.1| ≤ tol)) ∧
    (∀ (dft dfr : List (ℚ × ℚ)) (tol : ℚ),
      exactJoin (cleanCurve dft) (cleanCurve dfr) ≠ [] →
      joinThreshold (cleanCurve dft).length (cleanCurve dfr).length
        ≤ (exactJoin (cleanCurve dft) (cleanCurve dfr)).length →
      add_spread_vs_ref_par dft dfr tol
        = List.insertionSort leY ((exactJoin (cleanCurve dft) (cleanCurve dfr)).map
            (fun r => (r.1, (r.2.1 - r.2.2) * 100)))) ∧
    (∀ (dft dfr : List (ℚ × ℚ)) (tol : ℚ), cleanCurve dft ≠ [] → cleanCurve dfr ≠ [] →
      (exactJoin (cleanCurve dft) (cleanCurve dfr) = [] ∨
        (exactJoin (cleanCurve dft) (cleanCurve dfr)).length
          < joinThreshold (cleanCurve dft).length (cleanCurve dfr).length) →
      add_spread_vs_ref_par dft dfr tol
        = List.insertionSort leY ((asofNearest (cleanCurve dft) (cleanCurve dfr) tol).map
            (fun r => (r.1, (r.2.1 - r.2.2) * 100)))) ∧
    add_spread_vs_ref_par [((2 : ℚ), (3 : ℚ)), ((5 : ℚ), (4 : ℚ)), ((10 : ℚ), (5 : ℚ))]
      [((41 : ℚ)/20, (1 : ℚ)), ((51 : ℚ)/10, (2 : ℚ)), ((99 : ℚ)/10, (3 : ℚ))] (3/20)
      = [(2, 200), (5, 200), (10, 200)] ∧
    add_spread_vs_ref_par [((2 : ℚ), (3 : ℚ)), ((5 : ℚ), (4 : ℚ)), ((10 : ℚ), (5 : ℚ))]
      [((41 : ℚ)/20, (1 : ℚ)), ((51 : ℚ)/10, (2 : ℚ)), ((99 : ℚ)/10, (3 : ℚ))] (1/50)
      = [] := by
  have hsound : ∀ (dft dfr : List (ℚ × ℚ)) (tol : ℚ),
      ∀ r ∈ add_spread_vs_ref_par dft dfr tol,
      ∃ yr rr y2, (r.1, yr) ∈ cleanCurve dft ∧ (y2, rr) ∈ cleanCurve dfr ∧
        r.2 = (yr - rr) * 100 ∧ (y2 = r.1 ∨ |y2 - r.1| ≤ tol) := by
    intro dft dfr tol r hr
    rw [add_spread_vs_ref_par] at hr
    by_cases hg : cleanCurve dft = [] ∨ cleanCurve dfr = []
    · rw [if_pos hg] at hr
      cases hr
    · rw [if_neg hg] at hr
      have hr2 := (List.perm_insertionSort leY _).subset hr
      rcases List.mem_map.mp hr2 with ⟨t, ht, hte⟩
      by_cases hf : exactJoin (cleanCurve dft) (cleanCurve dfr) = [] ∨
          (exactJoin (cleanCurve dft) (cleanCurve dfr)).length
            < joinThreshold (cleanCurve dft).length (cleanCurve dfr).length
      · rw [if_pos hf] at ht
        rcases List.mem_filterMap.mp ht with ⟨p, hp, hpt⟩
        cases hq : nearestRef p.1 tol (cleanCurve dfr) with
        | none => rw [hq] at hpt; cases hpt
        | some q =>
          rw [hq] at hpt
          have hspec := nearestRef_spec p.1 tol (cleanCurve dfr) q hq
          refine ⟨p.2, q.2, q.1, ?_, ?_, ?_, Or.inr ?_⟩
          · have : t.1 = p.1 := by rw [← Option.some.inj hpt]
            rw [← hte, this]
            simpa using hp
          · simpa using hspec.1
          · rw [← hte, ← Option.some.inj hpt]
          · rw [← hte, ← Option.some.inj hpt]
            simpa using hspec.2
      · rw [if_neg hf] at ht
        rcases List.mem_filterMap.mp ht with ⟨p, hp, hpt⟩
        cases hq : (cleanCurve dfr).find? (fun q => decide (q.1 = p.1)) with
        | none => rw [hq] at hpt; cases hpt
        | some q =>
          rw [hq] at hpt
          have hqmem : q ∈ cleanCurve dfr := List.mem_of_find?_eq_some hq
          have hqkey : q.1 = p.1 := by
            have := List.find?_some hq
            simpa using this
          refine ⟨p.2, q.2, q.1, ?_, ?_, ?_, Or.inl ?_⟩
          · have : t.1 = p.1 := by rw [← Option.some.inj hpt]
            rw [← hte, this]
            simpa using hp
          · simpa using hqmem
          · rw [← hte, ← Option.some.inj hpt]
          · rw [← hte, ← Option.some.inj hpt, hqkey]
  refine ⟨hsound, ?_, ?_, ?_, ?_⟩
  · intro dft dfr tol hne hth
    have hg : ¬ (cleanCurve dft = [] ∨ cleanCurve dfr = []) := by
      push_neg
      cases he : exactJoin (cleanCurve dft) (cleanCurve dfr) with
      | nil => exact absurd he hne
      | cons t ts =>
        have htm : t ∈ exactJoin (cleanCurve dft) (cleanCurve dfr) := by
          rw [he]; exact List.mem_cons_self _ _
        rcases List.mem_filterMap.mp htm with ⟨p, hp, hpt⟩
        cases hq : (cleanCurve dfr).find? (fun q => decide (q.1 = p.1)) with
        | none => rw [hq] at hpt; cases hpt
        | some q =>
          exact ⟨List.ne_nil_of_mem hp,
            List.ne_nil_of_mem (List.mem_of_find?_eq_some hq)⟩
    have hcond : ¬ (exactJoin (cleanCurve dft) (cleanCurve dfr) = [] ∨
        (exactJoin (cleanCurve dft) (cleanCurve dfr)).length
          < joinThreshold (cleanCurve dft).length (cleanCurve dfr).length) := by
      push_neg
      exact ⟨hne, hth⟩
    simp only [add_spread_vs_ref_par]
    rw [if_neg hg, if_neg hcond]
  · intro dft dfr tol ha hb hcond
    have hg : ¬ (cleanCurve dft = [] ∨ cleanCurve dfr = []) := by
      push_neg
      exact ⟨ha, hb⟩
    simp only [add_spread_vs_ref_par]
    rw [if_neg hg, if_pos hcond]
  · norm_num [add_spread_vs_ref_par, cleanCurve, groupAvg, sortByYears,
      List.insertionSort, List.orderedInsert, leY, exactJoin, asofNearest, nearestRef,
      joinThreshold, List.filterMap, List.find?, List.takeWhile, List.dropWhile,
      abs_sub_le_iff, le_abs]
    intro h
    rcases h with h | h <;> exact absurd h (List.cons_ne_nil _ _)
  · norm_num [add_spread_vs_ref_par, cleanCurve, groupAvg, sortByYears,
      List.insertionSort, List.orderedInsert, leY, exactJoin, asofNearest, nearestRef,
      joinThreshold, List.filterMap, List.find?, List.takeWhile, List.dropWhile,
      abs_sub_le_iff, le_abs]

end G10

namespace G10

set_option maxRecDepth 8000 in
/-- C5 counterexample: target years [1, 2, 3.0000001] against reference years
[1, 2, 3.0000004]. All three pairs agree after rounding years to 1e-6, so the
alignment described by the claim joins three rows and never falls back,
while the code joins on exact equality, keeps only the two equal rows (still
at least the threshold max(2, floor(0.3 * 3)) = 2, so no fallback either) and
emits two rows where the claim requires three. -/
theorem c5_exact_join_counterexample :
    (add_spread_vs_ref_par
        [((1 : ℚ), (10 : ℚ)), ((2 : ℚ), (10 : ℚ)), ((3 : ℚ) + 1/10^7, (10 : ℚ))]
        [((1 : ℚ), (9 : ℚ)), ((2 : ℚ), (9 : ℚ)), ((3 : ℚ) + 4/10^7, (9 : ℚ))]
        (3/20)).length = 2 ∧
    (add_spread_vs_ref_par_claim
        [((1 : ℚ), (10 : ℚ)), ((2 : ℚ), (10 : ℚ)), ((3 : ℚ) + 1/10^7, (10 : ℚ))]
        [((1 : ℚ), (9 : ℚ)), ((2 : ℚ), (9 : ℚ)), ((3 : ℚ) + 4/10^7, (9 : ℚ))]
        (3/20)).length = 3 := by
  have hrh1 : roundHalfEven ((30000001 : ℚ) / 10000000 * 10^6) = 3000000 := by
    have hfl : ⌊(30000001 : ℚ) / 10000000 * 10^6⌋ = 3000000 := by
      rw [Int.floor_eq_iff]
      norm_num
    simp only [roundHalfEven, hfl]
    norm_num
  have hrh4 : roundHalfEven ((7500001 : ℚ) / 2500000 * 10^6) = 3000000 := by
    have hfl : ⌊(7500001 : ℚ) / 2500000 * 10^6⌋ = 3000000 := by
      rw [Int.floor_eq_iff]
      norm_num
    simp only [roundHalfEven, hfl]
    norm_num
  have hrha : roundHalfEven ((1 : ℚ) * 10^6) = 1000000 := by
    have hfl : ⌊(1 : ℚ) * 10^6⌋ = 1000000 := by
      rw [Int.floor_eq_iff]
      norm_num
    simp only [roundHalfEven, hfl]
    norm_num
  have hrhb : roundHalfEven ((2 : ℚ) * 10^6) = 2000000 := by
    have hfl : ⌊(2 : ℚ) * 10^6⌋ = 2000000 := by
      rw [Int.floor_eq_iff]
      norm_num
    simp only [roundHalfEven, hfl]
    norm_num
  have hr1 : round6 ((30000001 : ℚ) / 10000000) = 3 := by
    rw [round6, hrh1]
    norm_num
  have hr4 : round6 ((7500001 : ℚ) / 2500000) = 3 := by
    rw [round6, hrh4]
    norm_num
  have hra : round6 (1 : ℚ) = 1 := by
    rw [round6, hrha]
    norm_num
  have hrb : round6 (2 : ℚ) = 2 := by
    rw [round6, hrhb]
    norm_num
  constructor <;>
    norm_num [add_spread_vs_ref_par, add_spread_vs_ref_par_claim, cleanCurve, groupAvg,
      sortByYears, List.insertionSort, List.orderedInsert, leY, exactJoin, claimJoin,
      hr1, hr4, hra, hrb, asofNearest, nearestRef, joinThreshold, List.filterMap,
      List.find?, List.takeWhile, List.dropWhile, abs_sub_le_iff, le_abs,
      List.cons_ne_nil, (show Int.toNat 0 = 0 from rfl)]

/-- C5 witness: the alignment theorem instantiated on the claimed example
(fallback matches all three pairs at tolerance 0.15) and on a one point pair
where the strict join is empty, so the fallback path is taken. -/
theorem c5_alignment_amended_witness :
    add_spread_vs_ref_par [((2 : ℚ), (3 : ℚ)), ((5 : ℚ), (4 : ℚ)), ((10 : ℚ), (5 : ℚ))]
      [((41 : ℚ)/20, (1 : ℚ)), ((51 : ℚ)/10, (2 : ℚ)), ((99 : ℚ)/10, (3 : ℚ))] (3/20)
      = [(2, 200), (5, 200), (10, 200)] ∧
    add_spread_vs_ref_par [((1 : ℚ), (1 : ℚ))] [((2 : ℚ), (1 : ℚ))] 2
      = List.insertionSort leY ((asofNearest (cleanCurve [((1 : ℚ), (1 : ℚ))])
          (cleanCurve [((2 : ℚ), (1 : ℚ))]) 2).map
            (fun r => (r.1, (r.2.1 - r.2.2) * 100))) := by
  have hca : cleanCurve [((1 : ℚ), (1 : ℚ))] = [(1, 1)] := by
    norm_num [cleanCurve, groupAvg, sortByYears, List.insertionSort, List.orderedInsert]
  have hcb : cleanCurve [((2 : ℚ), (1 : ℚ))] = [(2, 1)] := by
    norm_num [cleanCurve, groupAvg, sortByYears, List.insertionSort, List.orderedInsert]
  refine ⟨c5_alignment_amended.2.2.2.1, ?_⟩
  apply c5_alignment_amended.2.2.1
  · rw [hca]
    simp
  · rw [hcb]
    simp
  · left
    rw [hca, hcb]
    norm_num [exactJoin, List.filterMap, List.find?]

end G10

namespace G10

theorem groupAvg_keys : ∀ (l : List (ℚ × ℚ)), ∀ e ∈ groupAvg l, ∃ q ∈ l, q.1 = e.1
  | [] => by simp [groupAvg]
  | p :: rest => by
    intro e he
    rw [groupAvg] at he
    rcases List.mem_cons.mp he with h | h
    · exact ⟨p, List.mem_cons_self _ _, by rw [h]⟩
    · rcases groupAvg_keys _ e h with ⟨q, hq, hqe⟩
      exact ⟨q, List.mem_cons_of_mem _ ((List.dropWhile_sublist _).subset hq), hqe⟩
termination_by l => l.length
decreasing_by
  simp only [List.length_cons]
  exact Nat.lt_succ_of_le (List.Sublist.length_le (List.dropWhile_sublist _))

theorem dropWhile_head_false {α : Type} (f : α → Bool) :
    ∀ (l : List α) (d : α) (ds : List α), l.dropWhile f = d :: ds → f d = false := by
  intro l d ds h
  have := List.head?_dropWhile_not f l
  rw [h] at this
  simpa using this

theorem groupAvg_sorted : ∀ (l : List (ℚ × ℚ)), l.Pairwise leY →
    (groupAvg l).Pairwise (fun p q => p.1 < q.1)
  | [] => by simp [groupAvg]
  | p :: rest => by
    intro hl
    rw [groupAvg]
    have hpw := List.pairwise_cons.mp hl
    have hdiffsorted : (rest.dropWhile (fun q => decide (q.1 = p.1))).Pairwise leY :=
      hpw.2.sublist (List.dropWhile_sublist _)
    refine List.pairwise_cons.mpr ⟨?_, groupAvg_sorted _ hdiffsorted⟩
    intro e he
    rcases groupAvg_keys _ e he with ⟨q, hq, hqe⟩
    have hgt : ∀ r ∈ rest.dropWhile (fun s => decide (s.1 = p.1)), p.1 < r.1 := by
      intro r hr
      cases hdw : rest.dropWhile (fun s => decide (s.1 = p.1)) with
      | nil => rw [hdw] at hr; cases hr
      | cons d ds =>
        rw [hdw] at hr
        have hdfalse := dropWhile_head_false (fun s => decide (s.1 = p.1)) rest d ds hdw
        have hdne : ¬ (d.1 = p.1) := by simpa using hdfalse
        have hdmem : d ∈ rest := (List.dropWhile_sublist _).subset (hdw ▸ List.mem_cons_self d ds)
        have hdge : p.1 ≤ d.1 := hpw.1 d hdmem
        have hdgt : p.1 < d.1 := lt_of_le_of_ne hdge (fun h => hdne h.symm)
        rcases List.mem_cons.mp hr with h | h
        · rw [h]
          exact hdgt
        · have hsorted : (d :: ds).Pairwise leY := hdw ▸ hdiffsorted
          have := (List.pairwise_cons.mp hsorted).1 r h
          exact lt_of_lt_of_le hdgt this
    rw [← hqe]
    exact hgt q hq
termination_by l => l.length
decreasing_by
  simp only [List.length_cons]
  exact Nat.lt_succ_of_le (List.Sublist.length_le (List.dropWhile_sublist _))

theorem cleanCurve_sorted (l : List (ℚ × ℚ)) :
    (cleanCurve l).Pairwise (fun p q => p.1 < q.1) :=
  groupAvg_sorted _ (List.sorted_insertionSort leY l)

theorem getLast?_mem {α : Type} : ∀ (l : List α) (e : α), l.getLast? = some e → e ∈ l
  | [], e => by intro h; cases h
  | [a], e => by
    intro h
    simp only [List.getLast?_singleton, Option.some.injEq] at h
    rw [← h]
    exact List.mem_singleton_self a
  | a :: b :: l, e => by
    intro h
    rw [List.getLast?_cons_cons] at h
    exact List.mem_cons_of_mem _ (getLast?_mem (b :: l) e h)

theorem npInterp_head (x x1 y1 : ℚ) (rest : List (ℚ × ℚ)) (hx : x ≤ x1) :
    npInterp x ((x1, y1) :: rest) = y1 := by
  cases rest with
  | nil => rfl
  | cons p rest2 =>
    obtain ⟨x2, y2⟩ := p
    simp [npInterp, hx]

theorem npInterp_last : ∀ (b : List (ℚ × ℚ)), b.Pairwise (fun p q => p.1 < q.1) →
    ∀ (x : ℚ) (e : ℚ × ℚ), b.getLast? = some e → e.1 ≤ x → npInterp x b = e.2
  | [] => by intro _ x e he; cases he
  | [(x1, y1)] => by
    intro _ x e he hle
    simp only [List.getLast?_singleton, Option.some.injEq] at he
    rw [← he]
    rfl
  | (x1, y1) :: (x2, y2) :: rest => by
    intro hsorted x e he hle
    have hlast : ((x2, y2) :: rest).getLast? = some e := by
      rw [List.getLast?_cons_cons] at he
      exact he
    have htail : ((x2, y2) :: rest).Pairwise (fun p q => p.1 < q.1) :=
      (List.pairwise_cons.mp hsorted).2
    have hmem : e ∈ (x2, y2) :: rest := getLast?_mem _ e hlast
    have hx1e : x1 < e.1 := (List.pairwise_cons.mp hsorted).1 e hmem
    have hnx1 : ¬ x ≤ x1 := not_le.mpr (lt_of_lt_of_le hx1e hle)
    have ih := npInterp_last ((x2, y2) :: rest) htail x e hlast hle
    cases rest with
    | nil =>
      have he2 : (x2, y2) = e := by simpa using hlast
      subst he2
      by_cases hx2 : x ≤ x2
      · have hxx2 : x = x2 := le_antisymm hx2 hle
        have hlt12 : x1 < x2 := (List.pairwise_cons.mp hsorted).1 (x2, y2) (by simp)
        have hne : x2 - x1 ≠ 0 := by
          intro hc
          have : x2 = x1 := by linarith
          linarith
        have hgoal : npInterp x ((x1, y1) :: (x2, y2) :: [])
            = y1 + (y2 - y1) * (x - x1) / (x2 - x1) := by
          simp only [npInterp, if_neg hnx1, if_pos hx2]
        rw [hgoal, hxx2, mul_div_assoc, div_self hne, mul_one]
        ring
      · simp only [npInterp, if_neg hnx1, if_neg hx2]
    | cons p3 rest3 =>
      have hlast2 : (p3 :: rest3).getLast? = some e := by
        rw [List.getLast?_cons_cons] at hlast
        exact hlast
      have hmem2 : e ∈ p3 :: rest3 := getLast?_mem _ e hlast2
      have hx2e : x2 < e.1 := (List.pairwise_cons.mp htail).1 e hmem2
      have hnx2 : ¬ x ≤ x2 := not_le.mpr (lt_of_lt_of_le hx2e hle)
      rw [← ih]
      simp only [npInterp, if_neg hnx1, if_neg hnx2]

end G10

namespace G10

/-- C6: for every bond curve with a nonempty cleaned form and every swap
curve with at least two cleaned points, the ASW computation emits exactly one
row per bond maturity; each row carries spreadBp = (bond rate - linearly
interpolated swap rate) * 100; the interpolation holds the boundary swap rate
constant below the first and above the last swap maturity; and if every bond
rate strictly exceeds the interpolated swap rate, every spreadBp is strictly
positive. -/
theorem c6_asw_spread_interp (df_bonds df_swaps : List (ℚ × ℚ))
    (ha : cleanCurve df_bonds ≠ []) (hb : 2 ≤ (cleanCurve df_swaps).length) :
    (asw_spread df_bonds df_swaps).length = (cleanCurve df_bonds).length ∧
    (∀ r ∈ asw_spread df_bonds df_swaps, ∃ br, (r.1, br) ∈ cleanCurve df_bonds ∧
      r.2 = (br - npInterp r.1 (cleanCurve df_swaps)) * 100) ∧
    (∀ (x : ℚ) (p0 : ℚ × ℚ), (cleanCurve df_swaps).head? = some p0 → x ≤ p0.1 →
      npInterp x (cleanCurve df_swaps) = p0.2) ∧
    (∀ (x : ℚ) (pl : ℚ × ℚ), (cleanCurve df_swaps).getLast? = some pl → pl.1 ≤ x →
      npInterp x (cleanCurve df_swaps) = pl.2) ∧
    ((∀ p ∈ cleanCurve df_bonds, npInterp p.1 (cleanCurve df_swaps) < p.2) →
      ∀ r ∈ asw_spread df_bonds df_swaps, 0 < r.2) := by
  have hg : ¬ (cleanCurve df_bonds = [] ∨ (cleanCurve df_swaps).length < 2) := by
    push_neg
    exact ⟨ha, hb⟩
  have hout : asw_spread df_bonds df_swaps
      = List.insertionSort leY ((cleanCurve df_bonds).map
          (fun p => (p.1, (p.2 - npInterp p.1 (cleanCurve df_swaps)) * 100))) := by
    simp only [asw_spread]
    rw [if_neg hg]
  have hmem : ∀ r ∈ asw_spread df_bonds df_swaps, ∃ br, (r.1, br) ∈ cleanCurve df_bonds ∧
      r.2 = (br - npInterp r.1 (cleanCurve df_swaps)) * 100 := by
    intro r hr
    rw [hout] at hr
    have hr2 := (List.perm_insertionSort leY _).subset hr
    rcases List.mem_map.mp hr2 with ⟨p, hp, hpe⟩
    refine ⟨p.2, ?_, ?_⟩
    · have h1 : r.1 = p.1 := by rw [← hpe]
      rw [h1]
      simpa using hp
    · rw [← hpe]
  refine ⟨?_, hmem, ?_, ?_, ?_⟩
  · rw [hout, (List.perm_insertionSort leY _).length_eq, List.length_map]
  · intro x p0 h0 hx
    cases hcb : cleanCurve df_swaps with
    | nil => rw [hcb] at h0; cases h0
    | cons q tail =>
      obtain ⟨qx, qy⟩ := q
      rw [hcb] at h0
      have : (qx, qy) = p0 := by simpa using h0
      rw [← this] at hx ⊢
      exact npInterp_head x qx qy tail hx
  · intro x pl hl hx
    exact npInterp_last (cleanCurve df_swaps) (cleanCurve_sorted df_swaps) x pl hl hx
  · intro hlt r hr
    rcases hmem r hr with ⟨br, hbr, hre⟩
    have := hlt (r.1, br) hbr
    simp only at this
    rw [hre]
    have hpos : 0 < br - npInterp r.1 (cleanCurve df_swaps) := by linarith
    positivity

/-- C6 witness: the ASW theorem applied to the bond curve (1y, 5), (2y, 6)
against the swap curve (1y, 3), (2y, 4): one row per bond maturity and flat
extrapolation 3 below 1y and 4 above 2y. -/
theorem c6_asw_spread_interp_witness :
    (asw_spread [((1 : ℚ), (5 : ℚ)), ((2 : ℚ), (6 : ℚ))]
        [((1 : ℚ), (3 : ℚ)), ((2 : ℚ), (4 : ℚ))]).length
      = (cleanCurve [((1 : ℚ), (5 : ℚ)), ((2 : ℚ), (6 : ℚ))]).length ∧
    npInterp 0 (cleanCurve [((1 : ℚ), (3 : ℚ)), ((2 : ℚ), (4 : ℚ))]) = 3 ∧
    npInterp 10 (cleanCurve [((1 : ℚ), (3 : ℚ)), ((2 : ℚ), (4 : ℚ))]) = 4 := by
  have hca : cleanCurve [((1 : ℚ), (5 : ℚ)), ((2 : ℚ), (6 : ℚ))] = [(1, 5), (2, 6)] := by
    norm_num [cleanCurve, groupAvg, sortByYears, List.insertionSort, List.orderedInsert,
      leY, List.takeWhile, List.dropWhile]
  have hcb : cleanCurve [((1 : ℚ), (3 : ℚ)), ((2 : ℚ), (4 : ℚ))] = [(1, 3), (2, 4)] := by
    norm_num [cleanCurve, groupAvg, sortByYears, List.insertionSort, List.orderedInsert,
      leY, List.takeWhile, List.dropWhile]
  have h := c6_asw_spread_interp [((1 : ℚ), (5 : ℚ)), ((2 : ℚ), (6 : ℚ))]
    [((1 : ℚ), (3 : ℚ)), ((2 : ℚ), (4 : ℚ))]
    (by rw [hca]; simp) (by rw [hcb]; simp)
  refine ⟨h.1, ?_, ?_⟩
  · exact h.2.2.1 0 (1, 3) (by rw [hcb]; rfl) (by norm_num)
  · exact h.2.2.2.1 10 (2, 4) (by rw [hcb]; rfl) (by norm_num)

end G10
